import Mathlib

/-!
Verification of the phishlens HTML phishing-page analyzer.

This file is a shallow embedding, in Lean 4, of the core of the phishlens
repository: the domain utilities (phishlens/utils.py), the scoring and
aggregation algorithm (phishlens/analyzer.py), the rule-evaluation engine
with its failure isolation (phishlens/analyzer.py), and the ten builtin
rules (phishlens/builtin_rules.py).  Each definition is translated from the
Python source; the comments reference the Python function it embeds.

Modelling conventions:
* Python strings are Lean `String`s; most processing happens over `List Char`
  (`String.data`).  String operations such as `str.strip()` and `str.lower()`
  are modelled on their ASCII fragment (Unicode-only differences, such as
  non-ASCII whitespace or case folding, are outside the scope of the claims).
* `urllib.parse.urlparse` is an external library; `rawNetloc` below models its
  netloc extraction (WHATWG stripping, scheme split, authority up to the first
  of "/?#", the mismatched-bracket `ValueError`).  The additional
  bracketed-host validation of CPython 3.11+ is not modelled; no theorem below
  depends on the value of the netloc extraction on bracketed hosts.
* Python regular-expression searches are translated into explicit scanning
  matchers, with the regex quoted next to each matcher.
* The floating-point Shannon-entropy threshold of the JS_HIGH_ENTROPY_INLINE
  rule is modelled as an oracle parameter `entHigh : String -> Bool`
  (floating point is not shallowly embeddable); every theorem quantifies over
  the oracle.
* A rule check that may raise is modelled as returning `Except String`; the
  builtin checks never raise and always return `Except.ok`.
* `Finding.evidence` payloads that are structured values in Python (lists,
  numbers) are rendered as strings; no theorem depends on the evidence of a
  builtin finding (only the RULE_ERROR finding's evidence is claim-relevant).
-/

/-! ## Character and string utilities (ASCII models of Python str methods) -/

/-- ASCII lower-casing of a single character: the ASCII fragment of Python
`str.lower()`. -/
def lowChar : Char → Char
  | 'A' => 'a' | 'B' => 'b' | 'C' => 'c' | 'D' => 'd' | 'E' => 'e' | 'F' => 'f'
  | 'G' => 'g' | 'H' => 'h' | 'I' => 'i' | 'J' => 'j' | 'K' => 'k' | 'L' => 'l'
  | 'M' => 'm' | 'N' => 'n' | 'O' => 'o' | 'P' => 'p' | 'Q' => 'q' | 'R' => 'r'
  | 'S' => 's' | 'T' => 't' | 'U' => 'u' | 'V' => 'v' | 'W' => 'w' | 'X' => 'x'
  | 'Y' => 'y' | 'Z' => 'z'
  | c => c

/-- Lower-case a character list. -/
def lcL (l : List Char) : List Char := l.map lowChar

/-- Lower-case a string (models Python `str.lower()`, ASCII fragment). -/
def lowerS (s : String) : String := String.mk (lcL s.data)

/-- The ASCII whitespace characters stripped by Python `str.strip()`. -/
def isPyWS (c : Char) : Bool :=
  c == ' ' || c == '\t' || c == '\n' || c == '\r' || c == '\x0B' || c == '\x0C'

/-- Drop characters satisfying `p` from the end of a list. -/
def dropEndWhile (p : Char → Bool) (l : List Char) : List Char :=
  (l.reverse.dropWhile p).reverse

/-- Models Python `str.strip()` (ASCII fragment) on a character list. -/
def stripWS (l : List Char) : List Char := dropEndWhile isPyWS (l.dropWhile isPyWS)

/-- Models Python `str.strip()` (ASCII fragment) on a string. -/
def stripS (s : String) : String := String.mk (stripWS s.data)

/-- Substring test, model of Python `needle in haystack` on strings. -/
def containsSub (pat : List Char) : List Char → Bool
  | [] => pat.isPrefixOf ([] : List Char)
  | c :: rest => pat.isPrefixOf (c :: rest) || containsSub pat rest

/-- Case-insensitive substring test. -/
def containsSubCI (pat l : List Char) : Bool := containsSub (lcL pat) (lcL l)

/-- The suffix of `l` after the first case-insensitive occurrence of `pat`
(empty if there is none); models `re.split(pat, l, maxsplit=1, flags=re.IGNORECASE)[1]`
for a pattern that is a literal. -/
def afterSubCI (pat : List Char) : List Char → List Char
  | [] => []
  | c :: rest =>
    if (lcL pat).isPrefixOf (lcL (c :: rest)) then (c :: rest).drop pat.length
    else afterSubCI pat rest

/-- Strip all leading and trailing copies of the character `ch` (models Python
`str.strip(ch)` for a single-character argument). -/
def stripCharEnds (ch : Char) (l : List Char) : List Char :=
  dropEndWhile (· == ch) (l.dropWhile (· == ch))

/-- Python `s.split(ch)` on a character list: always returns at least one
(possibly empty) group. -/
def splitOnCharL (ch : Char) : List Char → List (List Char)
  | [] => [[]]
  | c :: rest =>
    if c == ch then [] :: splitOnCharL ch rest
    else
      match splitOnCharL ch rest with
      | g :: gs => (c :: g) :: gs
      | [] => [[c]]

/-- The suffix after the first occurrence of `ch` (model of
`s.split(ch, 1)[-1]` when `ch` occurs in `s`). -/
def afterFirstChar (ch : Char) : List Char → List Char
  | [] => []
  | c :: cs => if c == ch then cs else afterFirstChar ch cs

/-- The prefix before the first occurrence of `ch` (model of
`s.split(ch, 1)[0]`). -/
def beforeFirstChar (ch : Char) (l : List Char) : List Char :=
  l.takeWhile (· != ch)

/-! ## Model of urllib.parse netloc extraction (external library)

CPython's `urlsplit` strips leading/trailing C0-control-or-space characters,
removes every tab/CR/LF, optionally splits a scheme, and, when the remainder
starts with `//`, takes the authority up to the first of `/?#`, raising
`ValueError` when square brackets are mismatched.  `safe_urlparse` in
phishlens/utils.py turns any such exception into `urlparse("")`, whose netloc
is empty. -/

/-- WHATWG C0-control-or-space predicate used by CPython url stripping. -/
def isC0OrSpace (c : Char) : Bool := c.toNat ≤ 32

/-- The tab/CR/LF characters CPython removes from anywhere in a URL. -/
def isUnsafeUrlByte (c : Char) : Bool := c == '\t' || c == '\r' || c == '\n'

/-- CPython URL preprocessing: strip C0-control-or-space at both ends, then
remove every tab, CR and LF. -/
def urlPrep (l : List Char) : List Char :=
  (dropEndWhile isC0OrSpace (l.dropWhile isC0OrSpace)).filter
    (fun c => !isUnsafeUrlByte c)

/-- Characters allowed in a URL scheme after the first (CPython scheme_chars). -/
def schemeChar (c : Char) : Bool :=
  c.isAlpha || c.isDigit || c == '+' || c == '-' || c == '.'

/-- Index of the first colon, if any. -/
def idxOfColon : List Char → Option Nat
  | [] => none
  | c :: cs => if c == ':' then some 0 else (idxOfColon cs).map (· + 1)

/-- Whether a (preprocessed) URL starts with a valid scheme followed by a
colon, per CPython urlsplit. -/
def hasSchemePrep (l : List Char) : Bool :=
  match idxOfColon l with
  | some i =>
    decide (0 < i) &&
      (match l.head? with
       | some c0 => c0.isAlpha
       | none => false) &&
      (l.take i).all schemeChar
  | none => false

/-- Remove the scheme and its colon when present, per CPython urlsplit. -/
def afterScheme (l : List Char) : List Char :=
  match idxOfColon l with
  | some i => if hasSchemePrep l then l.drop (i + 1) else l
  | none => l

/-- The netloc of a preprocessed URL; `none` models the `ValueError` CPython
raises on mismatched square brackets in the authority. -/
def rawNetloc (l : List Char) : Option (List Char) :=
  match afterScheme l with
  | '/' :: '/' :: rest =>
    let n := rest.takeWhile (fun c => !(c == '/' || c == '?' || c == '#'))
    if (n.contains '[' && !n.contains ']') || (n.contains ']' && !n.contains '[') then
      none
    else some n
  | _ => some []

/-- Model of `safe_urlparse(url).netloc` (phishlens/utils.py): any parse
exception yields `urlparse("")`, whose netloc is empty. -/
def pyNetloc (url : String) : String :=
  match rawNetloc (urlPrep url.data) with
  | none => ""
  | some l => String.mk l

/-- Model of `safe_urlparse(url).scheme` truthiness: whether a scheme is
present (empty on the exception path). -/
def pyHasScheme (url : String) : Bool :=
  match rawNetloc (urlPrep url.data) with
  | none => false
  | some _ => hasSchemePrep (urlPrep url.data)

/-! ## get_domain (phishlens/utils.py) -/

/-- Drop the userinfo of a netloc: everything through the first "@" when one
occurs (utils.py lines 23-24). -/
def dropUserinfo (l : List Char) : List Char :=
  if l.contains '@' then afterFirstChar '@' l else l

/-- Drop the port of a netloc: everything from the first ":" when one occurs
(utils.py lines 25-26). -/
def dropPort (l : List Char) : List Char :=
  if l.contains ':' then beforeFirstChar ':' l else l

/-- Translation of `get_domain` (utils.py lines 18-27): lower-case the
stripped netloc, return "" when it is empty, otherwise drop the userinfo
(through the first "@") and the port (from the first ":"). -/
def get_domain (url : String) : String :=
  let netloc := lcL (stripWS (pyNetloc url).data)
  if netloc.isEmpty then ""
  else String.mk (dropPort (dropUserinfo netloc))

/-- Modelled from the spec: the host component of a URL - the parsed netloc
with surrounding whitespace removed, any userinfo (through the first "@")
stripped, and any port (from the first ":") stripped, case preserved. -/
def hostComponent (url : String) : String :=
  String.mk (dropPort (dropUserinfo (stripWS (pyNetloc url).data)))

/-! ## is_ip_domain (phishlens/utils.py) -/

/-- Greedy match of the regex atom `\d{1,3}` (ASCII digits): consume one to
three leading digits, returning the rest; `none` when the first character is
not a digit. -/
def dig1to3 (l : List Char) : Option (List Char) :=
  match l with
  | c1 :: r1 =>
    if c1.isDigit then
      match r1 with
      | c2 :: r2 =>
        if c2.isDigit then
          match r2 with
          | c3 :: r3 => if c3.isDigit then some r3 else some r2
          | [] => some ([] : List Char)
        else some r1
      | [] => some ([] : List Char)
    else none
  | [] => none

/-- Match of the regex atom `\.`: expect a literal dot, returning the rest. -/
def expectDot (l : List Char) : Option (List Char) :=
  match l with
  | c :: r => if c == '.' then some r else none
  | [] => none

/-- Match of the regex anchor `$`: expect the end of the string. -/
def expectEnd (l : List Char) : Option (List Char) :=
  if l.isEmpty then some ([] : List Char) else none

/-- Anchored match of the regex `^(?:\d{1,3}\.){3}\d{1,3}$` (utils.py `_IP_RE`),
rendered as the sequence digits, dot, digits, dot, digits, dot, digits, end.
Greedy matching of `\d{1,3}` followed by a literal dot or the anchor is
equivalent to the regex engine's backtracking here, because a run of more
than three digits makes every alternative fail. -/
def ipQuad (l : List Char) : Bool :=
  ((((((((dig1to3 l).bind expectDot).bind dig1to3).bind expectDot).bind
      dig1to3).bind expectDot).bind dig1to3).bind expectEnd).isSome

/-- Translation of `is_ip_domain` (utils.py lines 30-31):
`_IP_RE.match(domain.strip().lower())`. -/
def is_ip_domain (domain : String) : Bool :=
  ipQuad (lcL (stripWS domain.data))

/-- Modelled from the claim: a dotted-quad IPv4 literal in the strict sense -
four dot-separated all-digit groups whose numeric values are between 0 and
255, and nothing else. -/
def is_ip_domain_claim (domain : String) : Bool :=
  let groups := splitOnCharL '.' domain.data
  groups.length == 4 &&
    groups.all (fun g =>
      !g.isEmpty && g.all Char.isDigit &&
        decide ((g.foldl (fun acc c => 10 * acc + (c.toNat - 48)) 0) ≤ 255))

/-! ## subdomain_depth and allowlisting (phishlens/utils.py) -/

/-- Translation of `subdomain_depth` (utils.py lines 34-38). -/
def subdomain_depth (domain : String) : Nat :=
  let parts := (splitOnCharL '.' domain.data).filter (fun p => !p.isEmpty)
  if parts.length ≤ 2 then 0 else parts.length - 2

/-- The wildcard test of the `is_allowlisted` loop body (utils.py lines
62-72) for one allowlist entry: the stripped, lower-cased entry must have the
form `*.suffix` with a nonempty suffix equal to `d` or a dot-suffix of `d`.
(Python binds the stripped lower-cased entry and its suffix to locals; they
are inlined here.) -/
def wildcardHit (d : List Char) (item : String) : Bool :=
  if (lcL (stripWS item.data)).isEmpty then false
  else if ['*', '.'].isPrefixOf (lcL (stripWS item.data)) then
    if ((lcL (stripWS item.data)).drop 2).isEmpty then false
    else d == (lcL (stripWS item.data)).drop 2
      || ('.' :: (lcL (stripWS item.data)).drop 2).isSuffixOf d
  else false

/-- Translation of `is_allowlisted` (utils.py lines 54-74).  The allowlist set
is modelled as a list; Python set membership is exact string equality (note:
the entries are not lower-cased for the exact-membership test, only the
domain is). -/
def is_allowlisted (domain : String) (allowlist : List String) : Bool :=
  if (lcL (stripWS domain.data)).isEmpty then false
  else if allowlist.any (fun a => a.data == lcL (stripWS domain.data)) then true
  else allowlist.any (wildcardHit (lcL (stripWS domain.data)))

/-- Modelled from the claim: fully case-insensitive allowlist membership - the
domain is an exact member up to case, or some entry of the form `*.suffix`
(case-insensitively) has its suffix equal to the domain or a dot-suffix of it. -/
def is_allowlisted_claim (domain : String) (allowlist : List String) : Bool :=
  let d := lcL domain.data
  allowlist.any (fun a => lcL a.data == d) ||
    allowlist.any (fun item =>
      let v := lcL item.data
      ['*', '.'].isPrefixOf v &&
        (d == v.drop 2 || ('.' :: v.drop 2).isSuffixOf d))

/-! ## Findings and the scorer (phishlens/report.py, phishlens/analyzer.py) -/

/-- Translation of the `Finding` dataclass (report.py lines 9-16).  The
`evidence` dict is modelled as a list of string key-value pairs. -/
structure Finding where
  rule_id : String
  title : String
  severity : String
  weight : Int
  description : String
  evidence : List (String × String)
deriving Repr, DecidableEq

/-- Stable insertion (descending by `key`) used to model Python
`sorted(..., key=..., reverse=True)`, which is a stable descending sort. -/
def insertDescBy {α : Type} (key : α → Int) (x : α) : List α → List α
  | [] => [x]
  | y :: ys => if key x < key y then y :: insertDescBy key x ys else x :: y :: ys

/-- Stable descending sort by `key`; model of Python
`sorted(..., key=..., reverse=True)`. -/
def sortDescBy {α : Type} (key : α → Int) (l : List α) : List α :=
  l.foldr (insertDescBy key) []

/-- One step of grouping by a string key; models
`by_rule.setdefault(f.rule_id, []).append(f)` on an insertion-ordered dict. -/
def addToGroups {α : Type} (key : α → String) (acc : List (String × List α)) (x : α) :
    List (String × List α) :=
  if acc.any (fun p => p.1 == key x) then
    acc.map (fun p => if p.1 == key x then (p.1, p.2 ++ [x]) else p)
  else acc ++ [(key x, [x])]

/-- Group a list by a string key, preserving first-occurrence key order and
within-group order; models the Python dict-of-lists grouping loop. -/
def groupByKey {α : Type} (key : α → String) (l : List α) : List (String × List α) :=
  l.foldl (addToGroups key) []

/-- Translation of `_RULE_MAX_CONTRIBUTION` (analyzer.py lines 14-18). -/
def RULE_MAX_CONTRIBUTION (rule_id : String) : Option Int :=
  if rule_id = "JS_HIGH_ENTROPY_INLINE" then some 12
  else if rule_id = "JS_OBFUSCATION_APIS" then some 40
  else if rule_id = "JS_LOCALHOST_CALLS" then some 36
  else none

/-- The pre-cap contribution of one rule-id group (the inner loop of
`_score_from_findings`, analyzer.py lines 149-157): sort descending by
weight; the first finding contributes `max(0, w)`, every later one
`max(1, max(0, w) // 2)`.  The weights are non-negative after `max(0, -)`,
so Lean `Int` division agrees with Python floor division here. -/
def groupContribution (items : List Finding) : Int :=
  match sortDescBy (fun f => f.weight) items with
  | [] => 0
  | first :: rest =>
    max 0 first.weight + (rest.map (fun f => max 1 (max 0 f.weight / 2))).sum

/-- The capped contribution of one rule-id group (analyzer.py lines 159-161). -/
def cappedContribution (rule_id : String) (items : List Finding) : Int :=
  match RULE_MAX_CONTRIBUTION rule_id with
  | some cap => min cap (groupContribution items)
  | none => groupContribution items

/-- Translation of `_score_from_findings` (analyzer.py lines 142-165). -/
def score_from_findings (findings : List Finding) : Int :=
  max 0 (min 100
    (((groupByKey (fun f => f.rule_id) findings).map
        (fun p => cappedContribution p.1 p.2)).sum))

/-- Translation of `_rating` (analyzer.py lines 168-173). -/
def rating_of (score : Int) : String :=
  if 80 ≤ score then "high_risk"
  else if 45 ≤ score then "medium_risk"
  else "low_risk"

/-- Modelled from the spec (claim C1): in a group sorted descending by weight,
the first finding contributes its full weight and each later one contributes
`max(1, weight / 2)` with integer division; the pre-cap contribution is the
sum of these terms. -/
def groupContribution_spec (items : List Finding) : Int :=
  match sortDescBy (fun f => f.weight) items with
  | [] => 0
  | first :: rest =>
    first.weight + (rest.map (fun f => max 1 (f.weight / 2))).sum

/-! ### Weight-projection pipeline

`_score_from_findings` reads only `rule_id` and `weight` of each finding.  The
definitions below re-run the same algorithm on the projection
`(rule_id, weight)`; the bridge lemmas further down prove the score factors
through this projection, which is what the monotonicity arguments use. -/

/-- Projection of a finding to the data the scorer reads. -/
def projFW (f : Finding) : String × Int := (f.rule_id, f.weight)

/-- Pre-cap group contribution on projected findings. -/
def wGroupContribution (items : List (String × Int)) : Int :=
  match sortDescBy (fun p => p.2) items with
  | [] => 0
  | first :: rest =>
    max 0 first.2 + (rest.map (fun p => max 1 (max 0 p.2 / 2))).sum

/-- Capped group contribution on projected findings. -/
def wCappedContribution (rule_id : String) (items : List (String × Int)) : Int :=
  match RULE_MAX_CONTRIBUTION rule_id with
  | some cap => min cap (wGroupContribution items)
  | none => wGroupContribution items

/-- The pre-clamp total on projected findings. -/
def wTotal (l : List (String × Int)) : Int :=
  ((groupByKey Prod.fst l).map (fun p => wCappedContribution p.1 p.2)).sum

/-- The score on projected findings. -/
def wScore (l : List (String × Int)) : Int := max 0 (min 100 (wTotal l))

/-- Contribution of a sorted weight list (the common core of
`groupContribution` and `wGroupContribution`). -/
def weightListContribution : List Int → Int
  | [] => 0
  | w :: rest => max 0 w + (rest.map (fun v => max 1 (max 0 v / 2))).sum

/-! ## The parsed document model

BeautifulSoup parsing is an external collaborator; a `Doc` is the parsed
document as the rules observe it: for each element kind the rules consult,
the list of elements with the attributes (`el.get(attr)`, `None` modelled as
`Option.none`) and, for scripts, the text content (`get_text()`). -/

structure FormTag where
  action : Option String
  method : Option String
deriving Repr, DecidableEq

structure ScriptTag where
  src : Option String
  text : String
deriving Repr, DecidableEq

structure IframeTag where
  style : Option String
  width : Option String
  height : Option String
  src : Option String
deriving Repr, DecidableEq

structure MetaTag where
  httpEquiv : Option String
  content : Option String
deriving Repr, DecidableEq

structure InputTag where
  type : Option String
  name : Option String
  id : Option String
  value : Option String
deriving Repr, DecidableEq

structure LinkTag where
  href : Option String
deriving Repr, DecidableEq

structure ImgTag where
  src : Option String
deriving Repr, DecidableEq

structure AnchorTag where
  href : Option String
deriving Repr, DecidableEq

/-- The parsed HTML document, as observed by the rules and the resource
collector. -/
structure Doc where
  forms : List FormTag
  scripts : List ScriptTag
  iframes : List IframeTag
  metas : List MetaTag
  inputs : List InputTag
  links : List LinkTag
  imgs : List ImgTag
  anchors : List AnchorTag
deriving Repr, DecidableEq

/-- Translation of the `RuleContext` dataclass (rules.py lines 11-17); the
allowlist set and the resource-domain dict are modelled as lists. -/
structure RuleContext where
  target : String
  base_url : Option String
  base_domain : String
  allowlist : List String
  resource_domains : List (String × Nat)
deriving Repr

/-- Translation of the `Rule` dataclass (rules.py lines 20-26); a check that
may raise is modelled with `Except String`. -/
structure Rule where
  rule_id : String
  title : String
  severity : String
  weight : Int
  check : Doc → RuleContext → Except String (List Finding)

/-- Concatenation of per-element outputs; models a Python loop that appends
zero or more findings per element. -/
def catMap {α β : Type} (f : α → List β) : List α → List β
  | [] => []
  | x :: xs => f x ++ catMap f xs

/-! ## Regex matchers for the JS rules (builtin_rules.py)

Python `\w` and `\s` are modelled by their ASCII fragments; every concrete
string in this file is ASCII. -/

/-- ASCII fragment of the regex word character class. -/
def wordChar (c : Char) : Bool := c.isAlphanum || c == '_'

/-- Whether the regex word boundary before a match position is satisfied,
given the character preceding the position (none at the start of the text). -/
def boundaryOk (prev : Option Char) : Bool :=
  match prev with
  | none => true
  | some c => !wordChar c

/-- Matches the regex tail `\s*\(` at the head of `l`. -/
def wsThenParen (l : List Char) : Bool :=
  match l.dropWhile isPyWS with
  | c :: _ => c == '('
  | [] => false

/-- Matches a case-insensitive literal followed by `\s*\(` at the head of `l`. -/
def litThenParen (lit : List Char) (l : List Char) : Bool :=
  if (lcL lit).isPrefixOf (lcL l) then wsThenParen (l.drop lit.length) else false

/-- Regex `\beval\s*\(` at one position (with preceding character). -/
def patEval (prev : Option Char) (l : List Char) : Bool :=
  boundaryOk prev && litThenParen "eval".data l

/-- Regex `\batob\s*\(` at one position. -/
def patAtob (prev : Option Char) (l : List Char) : Bool :=
  boundaryOk prev && litThenParen "atob".data l

/-- Regex `fromCharCode\s*\(` at one position (no word boundary in the
pattern). -/
def patFromCharCode (_prev : Option Char) (l : List Char) : Bool :=
  litThenParen "fromCharCode".data l

/-- Regex `document\.write\s*\(` at one position. -/
def patDocumentWrite (_prev : Option Char) (l : List Char) : Bool :=
  litThenParen "document.write".data l

/-- Regex `new\s+Function\s*\(` at one position. -/
def patNewFunction (_prev : Option Char) (l : List Char) : Bool :=
  if (lcL "new".data).isPrefixOf (lcL l) then
    match l.drop 3 with
    | c :: rest => isPyWS c && litThenParen "Function".data (rest.dropWhile isPyWS)
    | [] => false
  else false

/-- Regex `\bunescape\s*\(` at one position. -/
def patUnescape (prev : Option Char) (l : List Char) : Bool :=
  boundaryOk prev && litThenParen "unescape".data l

/-- Try a positional matcher at every position of the text, tracking the
preceding character; models `re.search`. -/
def searchWithPrev (p : Option Char → List Char → Bool) :
    Option Char → List Char → Bool
  | prev, [] => p prev []
  | prev, c :: rest => p prev (c :: rest) || searchWithPrev p (some c) rest

/-- The obfuscation-API patterns of `_js_obfuscation_apis` (builtin_rules.py
lines 236-243), paired with a short name used in the (simplified) evidence. -/
def obfuscationPatterns : List (String × (Option Char → List Char → Bool)) :=
  [("eval", patEval), ("atob", patAtob), ("fromCharCode", patFromCharCode),
   ("document.write", patDocumentWrite), ("new Function", patNewFunction),
   ("unescape", patUnescape)]

/-- Matches `https?://` case-insensitively at the head of `l`, returning the
rest. -/
def httpOrHttps (l : List Char) : Option (List Char) :=
  if "https://".data.isPrefixOf (lcL (l.take 8)) then some (l.drop 8)
  else if "http://".data.isPrefixOf (lcL (l.take 7)) then some (l.drop 7)
  else none

/-- Matches the regex fragment `\d{1,3}\.` at the head of `l` (greedy digits
then a literal dot), returning the rest. -/
def digitsDot (l : List Char) : Option (List Char) :=
  match dig1to3 l with
  | some ('.' :: r) => some r
  | _ => none

/-- Head starts with at least one digit (the final `\d{1,3}` of a searched,
unanchored pattern needs only its first digit to succeed). -/
def headDigit (l : List Char) : Bool :=
  match l with
  | c :: _ => c.isDigit
  | [] => false

/-- Regex `https?://localhost(?::\d+)?` at one position; the optional port
group never affects whether a search succeeds. -/
def patLocalhost (l : List Char) : Bool :=
  match httpOrHttps l with
  | some r => "localhost".data.isPrefixOf (lcL r)
  | none => false

/-- Regex `https?://127\.0\.0\.1(?::\d+)?` at one position. -/
def patLoopback (l : List Char) : Bool :=
  match httpOrHttps l with
  | some r => "127.0.0.1".data.isPrefixOf r
  | none => false

/-- Regex `https?://\[::1\](?::\d+)?` at one position. -/
def patV6Loopback (l : List Char) : Bool :=
  match httpOrHttps l with
  | some r => "[::1]".data.isPrefixOf r
  | none => false

/-- Regex `https?://10\.(?:\d{1,3}\.){2}\d{1,3}(?::\d+)?` at one position. -/
def patPrivate10 (l : List Char) : Bool :=
  match httpOrHttps l with
  | some r =>
    if "10.".data.isPrefixOf r then
      match digitsDot (r.drop 3) with
      | some r2 =>
        (match digitsDot r2 with
         | some r3 => headDigit r3
         | none => false)
      | none => false
    else false
  | none => false

/-- Regex `https?://192\.168\.(?:\d{1,3}\.)\d{1,3}(?::\d+)?` at one position. -/
def patPrivate192 (l : List Char) : Bool :=
  match httpOrHttps l with
  | some r =>
    if "192.168.".data.isPrefixOf r then
      match digitsDot (r.drop 8) with
      | some r2 => headDigit r2
      | none => false
    else false
  | none => false

/-- Regex `https?://172\.(?:1[6-9]|2\d|3[0-1])\.(?:\d{1,3}\.)\d{1,3}(?::\d+)?`
at one position. -/
def patPrivate172 (l : List Char) : Bool :=
  match httpOrHttps l with
  | some r =>
    if "172.".data.isPrefixOf r then
      match r.drop 4 with
      | a :: b :: '.' :: rest =>
        ((a == '1' && ('6' ≤ b && b ≤ '9')) ||
         (a == '2' && b.isDigit) ||
         (a == '3' && (b == '0' || b == '1'))) &&
          (match digitsDot rest with
           | some r2 => headDigit r2
           | none => false)
      | _ => false
    else false
  | none => false

/-- The localhost/private-endpoint patterns of `_js_localhost_calls`
(builtin_rules.py lines 298-305), paired with a short evidence name. -/
def localhostPatterns : List (String × (List Char → Bool)) :=
  [("localhost", patLocalhost), ("127.0.0.1", patLoopback),
   ("[::1]", patV6Loopback), ("10.x.x.x", patPrivate10),
   ("192.168.x.x", patPrivate192), ("172.16-31.x.x", patPrivate172)]

/-- Try a position matcher at every position; models `re.search` for the
boundary-free patterns. -/
def searchSub (p : List Char → Bool) : List Char → Bool
  | [] => p []
  | c :: rest => p (c :: rest) || searchSub p rest

/-! ## Builtin rules (builtin_rules.py)

In Python each check recovers its own id/title/severity/weight from the
global builtin rule list; here that lookup is resolved statically, so each
check constructs its findings with the literal metadata of its rule. -/

/-- The per-form body of `_form_action_external` (builtin_rules.py lines
96-113).  Python binds action, method and action_domain to locals; they are
inlined here. -/
def checkFormExternal (ctx : RuleContext) (form : FormTag) : List Finding :=
  if stripS (form.action.getD "") == "" then []
  else if get_domain (stripS (form.action.getD "")) != ""
      && ctx.base_domain != ""
      && get_domain (stripS (form.action.getD "")) != ctx.base_domain then
    if is_allowlisted (get_domain (stripS (form.action.getD ""))) ctx.allowlist then []
    else
      [{ rule_id := "FORM_ACTION_EXTERNAL",
         title := "Form posts to external domain",
         severity := "high", weight := 25,
         description := "A login form submitting to a different domain is a common phishing indicator.",
         evidence := [("action", stripS (form.action.getD "")),
                      ("method", lowerS (stripS
                        (if (form.method.getD "") == "" then "get"
                         else form.method.getD ""))),
                      ("action_domain", get_domain (stripS (form.action.getD ""))),
                      ("base_domain", ctx.base_domain)] }]
  else []

/-- Translation of `_form_action_external` (builtin_rules.py lines 92-115). -/
def form_action_external (doc : Doc) (ctx : RuleContext) : List Finding :=
  catMap (checkFormExternal ctx) doc.forms

/-- The per-form body of `_form_action_http` (builtin_rules.py lines
122-131). -/
def checkFormHttp (form : FormTag) : List Finding :=
  if "http://".data.isPrefixOf (lowerS (stripS (form.action.getD ""))).data then
    [{ rule_id := "FORM_ACTION_INSECURE_HTTP",
       title := "Form action uses insecure HTTP",
       severity := "high", weight := 20,
       description := "Submitting credentials over HTTP is insecure and unusual for legitimate login pages.",
       evidence := [("action", lowerS (stripS (form.action.getD "")))] }]
  else []

/-- Translation of `_form_action_http` (builtin_rules.py lines 118-133);
the check reads nothing from the context. -/
def form_action_http (doc : Doc) (ctx : RuleContext) : List Finding :=
  catMap checkFormHttp doc.forms

/-- First-occurrence deduplication; models accumulating Python set contents.
Only membership of the result is ever relevant. -/
def dedupStr (l : List String) : List String :=
  l.foldl (fun acc x => if acc.contains x then acc else acc ++ [x]) []

/-- Translation of `_external_js_domains` (builtin_rules.py lines 136-165).
Python collects a set of script-src domains; sets are modelled as
deduplicated lists, and only nonemptiness of the final set matters for the
finding. -/
def external_js_domains (doc : Doc) (ctx : RuleContext) : List Finding :=
  let domains := dedupStr (catMap (fun s =>
    let src := stripS (s.src.getD "")
    if src == "" then []
    else
      let d := get_domain src
      if d == "" then [] else [d]) doc.scripts)
  let domains2 := domains.filter (fun d => !is_allowlisted d ctx.allowlist)
  let suspicious :=
    if ctx.base_domain != "" then domains2.filter (fun d => d != ctx.base_domain)
    else domains2
  if suspicious.isEmpty then []
  else
    [{ rule_id := "EXTERNAL_JS_MIXED_DOMAINS",
       title := "External JS from mixed/unknown domains",
       severity := "medium", weight := 12,
       description := "Loading credential pages with external scripts from unrelated domains increases risk (skimming, injection, phishing kits).",
       evidence := (suspicious.map (fun d => ("external_script_domain", d))) ++
                   [("base_domain", ctx.base_domain)] }]

/-- Translation of `_meta_refresh` (builtin_rules.py lines 168-203). -/
def meta_refresh (doc : Doc) (ctx : RuleContext) : List Finding :=
  catMap (fun meta =>
    let httpEquiv := lowerS (stripS (meta.httpEquiv.getD ""))
    let content := stripS (meta.content.getD "")
    if httpEquiv == "refresh" && containsSubCI "url=".data content.data then
      let redirect := String.mk (stripCharEnds (Char.ofNat 39)
        (stripCharEnds '"' (stripWS (afterSubCI "url=".data content.data))))
      let redirect_domain := get_domain redirect
      if !pyHasScheme redirect && pyNetloc redirect == "" then []
      else if redirect_domain != "" && ctx.base_domain != "" &&
          redirect_domain == ctx.base_domain then []
      else if redirect_domain != "" && is_allowlisted redirect_domain ctx.allowlist then []
      else
        [{ rule_id := "META_REFRESH_REDIRECT",
           title := "Meta refresh redirect",
           severity := "medium", weight := 10,
           description := "Meta refresh redirects to an external domain can be used in phishing to forward victims.",
           evidence := [("content", content), ("redirect", redirect),
                        ("redirect_domain", redirect_domain),
                        ("base_domain", ctx.base_domain)] }]
    else []) doc.metas

/-- The sensitive-name keywords of `_hidden_inputs` (a Python set; iteration
order is irrelevant to the any-test). -/
def hiddenInputKeywords : List String :=
  ["token", "session", "auth", "redirect", "return", "next", "url"]

/-- Translation of `_hidden_inputs` (builtin_rules.py lines 206-229). -/
def hidden_inputs (doc : Doc) (ctx : RuleContext) : List Finding :=
  catMap (fun i =>
    let t := lowerS (stripS (i.type.getD ""))
    if t != "hidden" then []
    else
      let n0 := i.name.getD ""
      let n1 := if n0 == "" then i.id.getD "" else n0
      let name := lowerS (stripS n1)
      let val := stripS (i.value.getD "")
      if name == "" then []
      else if hiddenInputKeywords.any (fun k => containsSub k.data name.data) &&
          decide (120 < val.data.length) then
        [{ rule_id := "SUSPICIOUS_HIDDEN_INPUTS",
           title := "Suspicious hidden inputs",
           severity := "low", weight := 6,
           description := "Large hidden tokens/redirect parameters can be abused to exfiltrate or redirect.",
           evidence := [("name", name), ("value_len", toString val.data.length)] }]
      else []) doc.inputs

/-- The per-script body of `_js_obfuscation_apis` (builtin_rules.py lines
245-262).  Python binds the stripped text and the pattern hits to locals;
they are inlined here. -/
def checkScriptObfuscation (s : ScriptTag) : List Finding :=
  if (s.src.getD "") != "" then []
  else if (stripS s.text).data.length < 80 then []
  else if (obfuscationPatterns.filter
      (fun p => searchWithPrev p.2 none (stripS s.text).data)).isEmpty then []
  else
    [{ rule_id := "JS_OBFUSCATION_APIS",
       title := "Inline JS contains obfuscation APIs (eval/atob/fromCharCode/etc.)",
       severity := "high", weight := 20,
       description := "Inline JavaScript uses APIs commonly seen in obfuscated/phishing kit payloads.",
       evidence := ((obfuscationPatterns.filter
            (fun p => searchWithPrev p.2 none (stripS s.text).data)).map
            (fun p => ("pattern_hit", p.1))) ++
          [("snippet", String.mk ((stripS s.text).data.take 220))] }]

/-- Translation of `_js_obfuscation_apis` (builtin_rules.py lines 232-264);
the check reads nothing from the context. -/
def js_obfuscation_apis (doc : Doc) (ctx : RuleContext) : List Finding :=
  catMap checkScriptObfuscation doc.scripts

/-- Translation of `_js_high_entropy_inline` (builtin_rules.py lines 267-291);
`entHigh` is the oracle for the floating-point test
`shannon_entropy(text[:4000]) >= 5.2`. -/
def js_high_entropy_inline (entHigh : String → Bool) (doc : Doc) (ctx : RuleContext) :
    List Finding :=
  catMap (fun s =>
    if (s.src.getD "") != "" then []
    else
      let text := stripS s.text
      if text.data.length < 300 then []
      else if !entHigh (String.mk (text.data.take 4000)) then []
      else
        [{ rule_id := "JS_HIGH_ENTROPY_INLINE",
           title := "High-entropy inline JavaScript (often minified)",
           severity := "low", weight := 6,
           description := "High-entropy inline JS can indicate heavy minification or obfuscation. Use together with other signals.",
           evidence := [("snippet", String.mk (text.data.take 220))] }]) doc.scripts

/-- Translation of `_js_localhost_calls` (builtin_rules.py lines 294-326). -/
def js_localhost_calls (doc : Doc) (ctx : RuleContext) : List Finding :=
  catMap (fun s =>
    if (s.src.getD "") != "" then []
    else
      let text := stripS s.text
      if text.data.length < 80 then []
      else
        let hits := localhostPatterns.filter (fun p => searchSub p.2 text.data)
        if hits.isEmpty then []
        else
          [{ rule_id := "JS_LOCALHOST_CALLS",
             title := "Inline JS calls localhost/private IP endpoints",
             severity := "high", weight := 18,
             description := "Credential phishing kits sometimes call localhost/private endpoints to fingerprint devices or steal data.",
             evidence := (hits.map (fun p => ("pattern_hit", p.1))) ++
                         [("snippet", String.mk (text.data.take 260))] }]) doc.scripts

/-- The risky TLD set `_SUSPICIOUS_TLDS` (builtin_rules.py line 14). -/
def SUSPICIOUS_TLDS : List String := ["tk", "ml", "ga", "cf", "gq"]

/-- The last dot-separated label of a domain (Python `d.split(".")[-1]`). -/
def lastLabel (d : String) : String :=
  String.mk ((splitOnCharL '.' d.data).getLastD [])

/-- The per-domain suspicion reasons of `_suspicious_domain_patterns`
(builtin_rules.py lines 341-350), as a list of reason names. -/
def domainReasons (d : String) : List String :=
  (if is_ip_domain d then ["ip_domain"] else []) ++
  (if "xn--".data.isPrefixOf d.data then ["punycode"] else []) ++
  (if 3 ≤ subdomain_depth d then ["deep_subdomain"] else []) ++
  (if SUSPICIOUS_TLDS.contains (lastLabel d) then ["risky_tld"] else [])

/-- Translation of `_suspicious_domain_patterns` (builtin_rules.py lines
329-363).  Python iterates the domain set in lexicographically sorted order;
the order affects only the evidence listing, never whether the single finding
is emitted, and is modelled here in first-occurrence order. -/
def suspicious_domain_patterns (doc : Doc) (ctx : RuleContext) : List Finding :=
  let domains := dedupStr (ctx.resource_domains.map Prod.fst ++
    (if ctx.base_domain != "" then [ctx.base_domain] else []))
  let suspicious := (domains.filter (fun d =>
    d != "" && !is_allowlisted d ctx.allowlist && !(domainReasons d).isEmpty))
  if suspicious.isEmpty then []
  else
    [{ rule_id := "SUSPICIOUS_DOMAIN_PATTERN",
       title := "Suspicious domain patterns (IP/punycode/deep subdomains/risky TLD)",
       severity := "high", weight := 22,
       description := "Domain patterns often seen in phishing infrastructure (not definitive, but strong signals when combined).",
       evidence := suspicious.map (fun d => ("suspicious_domain", d)) }]

/-- The per-iframe body of `_hidden_iframe` (builtin_rules.py lines 370-381).
Python binds style, width and height to locals; they are inlined here. -/
def checkIframeHidden (fr : IframeTag) : List Finding :=
  if containsSub "display:none".data (lowerS (fr.style.getD "")).data ||
      containsSub "visibility:hidden".data (lowerS (fr.style.getD "")).data ||
      stripS (fr.width.getD "") == "0" || stripS (fr.width.getD "") == "1" ||
      stripS (fr.height.getD "") == "0" || stripS (fr.height.getD "") == "1" then
    [{ rule_id := "IFRAME_HIDDEN",
       title := "Hidden iframe present",
       severity := "medium", weight := 12,
       description := "Hidden iframes can be used for covert redirects or loading phishing kit components.",
       evidence := [("style", fr.style.getD ""), ("width", stripS (fr.width.getD "")),
                    ("height", stripS (fr.height.getD "")), ("src", fr.src.getD "")] }]
  else []

/-- Translation of `_hidden_iframe` (builtin_rules.py lines 366-383); the
check reads nothing from the context. -/
def hidden_iframe (doc : Doc) (ctx : RuleContext) : List Finding :=
  catMap checkIframeHidden doc.iframes

/-- Translation of the `Rule` declarations of `get_builtin_rules`
(builtin_rules.py lines 17-89); the builtin checks are total, so each is
wrapped in `Except.ok`. -/
def ruleFormActionExternal : Rule :=
  { rule_id := "FORM_ACTION_EXTERNAL", title := "Form posts to external domain",
    severity := "high", weight := 25,
    check := fun d c => Except.ok (form_action_external d c) }

def ruleFormActionHttp : Rule :=
  { rule_id := "FORM_ACTION_INSECURE_HTTP", title := "Form action uses insecure HTTP",
    severity := "high", weight := 20,
    check := fun d c => Except.ok (form_action_http d c) }

def ruleExternalJsDomains : Rule :=
  { rule_id := "EXTERNAL_JS_MIXED_DOMAINS", title := "External JS from mixed/unknown domains",
    severity := "medium", weight := 12,
    check := fun d c => Except.ok (external_js_domains d c) }

def ruleMetaRefresh : Rule :=
  { rule_id := "META_REFRESH_REDIRECT", title := "Meta refresh redirect",
    severity := "medium", weight := 10,
    check := fun d c => Except.ok (meta_refresh d c) }

def ruleHiddenInputs : Rule :=
  { rule_id := "SUSPICIOUS_HIDDEN_INPUTS", title := "Suspicious hidden inputs",
    severity := "low", weight := 6,
    check := fun d c => Except.ok (hidden_inputs d c) }

def ruleJsObfuscation : Rule :=
  { rule_id := "JS_OBFUSCATION_APIS",
    title := "Inline JS contains obfuscation APIs (eval/atob/fromCharCode/etc.)",
    severity := "high", weight := 20,
    check := fun d c => Except.ok (js_obfuscation_apis d c) }

def ruleJsHighEntropy (entHigh : String → Bool) : Rule :=
  { rule_id := "JS_HIGH_ENTROPY_INLINE", title := "High-entropy inline JavaScript (often minified)",
    severity := "low", weight := 6,
    check := fun d c => Except.ok (js_high_entropy_inline entHigh d c) }

def ruleJsLocalhost : Rule :=
  { rule_id := "JS_LOCALHOST_CALLS", title := "Inline JS calls localhost/private IP endpoints",
    severity := "high", weight := 18,
    check := fun d c => Except.ok (js_localhost_calls d c) }

def ruleSuspiciousDomain : Rule :=
  { rule_id := "SUSPICIOUS_DOMAIN_PATTERN",
    title := "Suspicious domain patterns (IP/punycode/deep subdomains/risky TLD)",
    severity := "high", weight := 22,
    check := fun d c => Except.ok (suspicious_domain_patterns d c) }

def ruleIframeHidden : Rule :=
  { rule_id := "IFRAME_HIDDEN", title := "Hidden iframe present",
    severity := "medium", weight := 12,
    check := fun d c => Except.ok (hidden_iframe d c) }

/-- Translation of `get_builtin_rules` (builtin_rules.py lines 17-89): the
ten builtin rules in declaration order. -/
def get_builtin_rules (entHigh : String → Bool) : List Rule :=
  [ruleFormActionExternal, ruleFormActionHttp, ruleExternalJsDomains,
   ruleMetaRefresh, ruleHiddenInputs, ruleJsObfuscation,
   ruleJsHighEntropy entHigh, ruleJsLocalhost, ruleSuspiciousDomain,
   ruleIframeHidden]

/-! ## The evaluation engine and analyze_html (phishlens/analyzer.py) -/

/-- The synthetic finding the engine produces when a rule raises
(analyzer.py lines 83-92). -/
def ruleErrorFinding (rule : Rule) (e : String) : Finding :=
  { rule_id := "RULE_ERROR",
    title := "Rule error: " ++ rule.rule_id,
    severity := "low", weight := 1,
    description := e,
    evidence := [("rule_id", rule.rule_id)] }

/-- One iteration of the engine loop (analyzer.py lines 79-92): extend the
accumulated findings with the rule's findings, or with the single synthetic
RULE_ERROR finding when the check raises. -/
def runRuleStep (doc : Doc) (ctx : RuleContext) (acc : List Finding) (rule : Rule) :
    List Finding :=
  match rule.check doc ctx with
  | Except.ok fs => acc ++ fs
  | Except.error e => acc ++ [ruleErrorFinding rule e]

/-- The engine loop over the rule list (analyzer.py lines 79-92). -/
def evalRules (rules : List Rule) (doc : Doc) (ctx : RuleContext) : List Finding :=
  rules.foldl (runRuleStep doc ctx) []

/-- The findings one rule contributes (its output, or the RULE_ERROR finding). -/
def ruleFindings (doc : Doc) (ctx : RuleContext) (rule : Rule) : List Finding :=
  match rule.check doc ctx with
  | Except.ok fs => fs
  | Except.error e => [ruleErrorFinding rule e]

/-- One attribute value of the resource collector (analyzer.py lines
127-130): keep the stripped value when non-empty. -/
def grabUrl (v : Option String) : List String :=
  if stripS (v.getD "") == "" then [] else [stripS (v.getD "")]

/-- Translation of `_collect_resource_domains` url gathering (analyzer.py
lines 116-130): the fixed (element, attribute) pairs, in source order,
keeping non-empty stripped values. -/
def collectUrls (doc : Doc) : List String :=
  catMap grabUrl
    (doc.scripts.map ScriptTag.src ++ doc.links.map LinkTag.href ++
     doc.imgs.map ImgTag.src ++ doc.iframes.map IframeTag.src ++
     doc.forms.map FormTag.action ++ doc.anchors.map AnchorTag.href)

/-- One counting step (analyzer.py lines 132-137): skip URLs without a
domain, otherwise increment that domain's count, inserting new domains at
the end (Python dict insertion order). -/
def bumpCount (acc : List (String × Nat)) (d : String) : List (String × Nat) :=
  if acc.any (fun p => p.1 == d) then
    acc.map (fun p => if p.1 == d then (p.1, p.2 + 1) else p)
  else acc ++ [(d, 1)]

/-- Translation of `_collect_resource_domains` (analyzer.py lines 116-139):
count referenced domains, then sort descending by count (stable). -/
def collect_resource_domains (doc : Doc) : List (String × Nat) :=
  sortDescBy (fun p => (p.2 : Int))
    ((collectUrls doc).foldl (fun acc u =>
      if get_domain u == "" then acc else bumpCount acc (get_domain u)) [])

/-- The stats map of the report (analyzer.py lines 97-103). -/
structure Stats where
  forms : Nat
  inputs : Nat
  scripts : Nat
  iframes : Nat
  resource_domains : List (String × Nat)
deriving Repr, DecidableEq

/-- Translation of the `Report` dataclass (report.py lines 19-27). -/
structure Report where
  target : String
  base_url : Option String
  base_domain : String
  score : Int
  rating : String
  findings : List Finding
  stats : Stats
deriving Repr, DecidableEq

/-- Translation of `analyze_html` (analyzer.py lines 51-113).  The
BeautifulSoup parse is the external input (`doc`); `entHigh` is the
floating-point entropy oracle threaded to the builtin rules. -/
def analyze_html (entHigh : String → Bool) (doc : Doc) (target : String)
    (base_url : Option String) (allowlist : List String)
    (extra_rules : List Rule) : Report :=
  let base_domain :=
    match base_url with
    | some u => if u == "" then "" else get_domain u
    | none => ""
  let resource_domains := collect_resource_domains doc
  let ctx : RuleContext :=
    { target := target, base_url := base_url, base_domain := base_domain,
      allowlist := allowlist.map lowerS, resource_domains := resource_domains }
  let rules := get_builtin_rules entHigh ++ extra_rules
  let findings := evalRules rules doc ctx
  let score := score_from_findings findings
  { target := target, base_url := base_url, base_domain := base_domain,
    score := score, rating := rating_of score,
    findings := sortDescBy (fun f => f.weight) findings,
    stats := { forms := doc.forms.length, inputs := doc.inputs.length,
               scripts := doc.scripts.length, iframes := doc.iframes.length,
               resource_domains := resource_domains } }

/-! ## Lemmas about the stable descending sort -/

theorem insertDescBy_perm {α : Type} (key : α → Int) (x : α) (l : List α) :
    (insertDescBy key x l).Perm (x :: l) := by
  induction l with
  | nil => simp [insertDescBy]
  | cons y ys ih =>
    by_cases h : key x < key y
    · simp only [insertDescBy, if_pos h]
      exact (ih.cons y).trans (List.Perm.swap x y ys)
    · simp [insertDescBy, if_neg h]

theorem sortDescBy_perm {α : Type} (key : α → Int) (l : List α) :
    (sortDescBy key l).Perm l := by
  induction l with
  | nil => exact List.Perm.refl []
  | cons x xs ih =>
    exact (insertDescBy_perm key x (sortDescBy key xs)).trans (ih.cons x)

theorem sorted_insertDescBy {α : Type} (key : α → Int) (x : α) (l : List α)
    (h : l.Sorted (fun a b => key b ≤ key a)) :
    (insertDescBy key x l).Sorted (fun a b => key b ≤ key a) := by
  induction l with
  | nil => simp [insertDescBy]
  | cons y ys ih =>
    rw [List.sorted_cons] at h
    by_cases hxy : key x < key y
    · simp only [insertDescBy, if_pos hxy]
      rw [List.sorted_cons]
      refine ⟨?_, ih h.2⟩
      intro b hb
      rcases List.mem_cons.1 (((insertDescBy_perm key x ys).mem_iff).1 hb) with hb | hb
      · exact hb ▸ hxy.le
      · exact h.1 b hb
    · simp only [insertDescBy, if_neg hxy]
      push_neg at hxy
      rw [List.sorted_cons]
      refine ⟨?_, List.sorted_cons.2 h⟩
      intro b hb
      rcases List.mem_cons.1 hb with hb | hb
      · exact hb ▸ hxy
      · exact (h.1 b hb).trans hxy

theorem sorted_sortDescBy {α : Type} (key : α → Int) (l : List α) :
    (sortDescBy key l).Sorted (fun a b => key b ≤ key a) := by
  induction l with
  | nil => simp [sortDescBy]
  | cons x xs ih => exact sorted_insertDescBy key x _ ih

theorem insertDescBy_map {α β : Type} (key : α → Int) (key2 : β → Int) (f : α → β)
    (hk : ∀ a, key2 (f a) = key a) (x : α) (l : List α) :
    (insertDescBy key x l).map f = insertDescBy key2 (f x) (l.map f) := by
  induction l with
  | nil => simp [insertDescBy]
  | cons y ys ih =>
    by_cases h : key x < key y <;>
      simp [insertDescBy, hk, h, ih]

theorem sortDescBy_map {α β : Type} (key : α → Int) (key2 : β → Int) (f : α → β)
    (hk : ∀ a, key2 (f a) = key a) (l : List α) :
    (sortDescBy key l).map f = sortDescBy key2 (l.map f) := by
  induction l with
  | nil => rfl
  | cons x xs ih =>
    show (insertDescBy key x (sortDescBy key xs)).map f = _
    rw [insertDescBy_map key key2 f hk, ih]
    rfl

/-! ## Lemmas about grouping by rule id -/

theorem groupByKey_append_singleton {α : Type} (key : α → String) (l : List α) (x : α) :
    groupByKey key (l ++ [x]) = addToGroups key (groupByKey key l) x := by
  simp [groupByKey, List.foldl_append]

theorem groupByKey_invariant {α : Type} (key : α → String) (l : List α) :
    ((groupByKey key l).map Prod.fst).Nodup ∧
    (∀ p ∈ groupByKey key l,
       p.2 = l.filter (fun y => key y == p.1) ∧ p.2 ≠ []) ∧
    (∀ x ∈ l, key x ∈ (groupByKey key l).map Prod.fst) := by
  induction l using List.reverseRecOn with
  | nil => simp [groupByKey]
  | append_singleton l x ih =>
    obtain ⟨hnd, hflt, hmem⟩ := ih
    rw [groupByKey_append_singleton]
    unfold addToGroups
    by_cases hk : ∃ p ∈ groupByKey key l, p.1 = key x
    · have hany : (groupByKey key l).any (fun p => p.1 == key x) = true := by
        rcases hk with ⟨p, hp, hpe⟩
        exact List.any_eq_true.2 ⟨p, hp, beq_iff_eq.2 hpe⟩
      rw [if_pos hany]
      have hkeys : ((groupByKey key l).map
            (fun p => if p.1 == key x then (p.1, p.2 ++ [x]) else p)).map Prod.fst
          = (groupByKey key l).map Prod.fst := by
        rw [List.map_map]
        refine List.map_congr_left ?_
        intro p _
        by_cases h : (p.1 == key x) = true
        · simp only [Function.comp, if_pos h]
        · simp only [Function.comp, if_neg h]
      refine ⟨hkeys ▸ hnd, ?_, ?_⟩
      · intro q hq
        rcases List.mem_map.1 hq with ⟨p, hp, hupd⟩
        obtain ⟨hfl, hne⟩ := hflt p hp
        subst hupd
        by_cases h : p.1 = key x
        · have hb : (p.1 == key x) = true := beq_iff_eq.2 h
          rw [if_pos hb]
          refine ⟨?_, by simp⟩
          show p.2 ++ [x] = _
          rw [List.filter_append, ← hfl]
          have : (key x == p.1) = true := beq_iff_eq.2 h.symm
          simp [this]
        · have hb : ¬ (p.1 == key x) = true := by simp [h]
          rw [if_neg hb]
          refine ⟨?_, hne⟩
          rw [List.filter_append, ← hfl]
          have : (key x == p.1) = false := beq_eq_false_iff_ne.2 (fun he => h he.symm)
          simp [this]
      · intro y hy
        rw [hkeys]
        rcases List.mem_append.1 hy with hy | hy
        · exact hmem y hy
        · rcases hk with ⟨p, hp, hpe⟩
          rw [List.mem_singleton.1 hy]
          exact hpe ▸ List.mem_map.2 ⟨p, hp, rfl⟩
    · have hany : ¬ (groupByKey key l).any (fun p => p.1 == key x) = true := by
        intro h
        rcases List.any_eq_true.1 h with ⟨p, hp, hpe⟩
        exact hk ⟨p, hp, beq_iff_eq.1 hpe⟩
      rw [if_neg hany]
      have hknew : key x ∉ (groupByKey key l).map Prod.fst := by
        intro h
        rcases List.mem_map.1 h with ⟨p, hp, hpe⟩
        exact hk ⟨p, hp, hpe⟩
      refine ⟨?_, ?_, ?_⟩
      · rw [List.map_append]
        have hperm := List.perm_append_singleton (key x) ((groupByKey key l).map Prod.fst)
        show ((groupByKey key l).map Prod.fst ++ [(key x, [x])].map Prod.fst).Nodup
        simp only [List.map_cons, List.map_nil]
        exact hperm.nodup_iff.2 (List.nodup_cons.2 ⟨hknew, hnd⟩)
      · intro q hq
        rcases List.mem_append.1 hq with hq | hq
        · obtain ⟨hfl, hne⟩ := hflt q hq
          refine ⟨?_, hne⟩
          rw [List.filter_append, ← hfl]
          have hne2 : (key x == q.1) = false := by
            refine beq_eq_false_iff_ne.2 ?_
            intro he
            exact hknew (he ▸ List.mem_map.2 ⟨q, hq, rfl⟩)
          simp [hne2]
        · rw [List.mem_singleton.1 hq]
          refine ⟨?_, by simp⟩
          show [x] = _
          rw [List.filter_append]
          have hfe : l.filter (fun y => key y == key x) = [] := by
            rw [List.filter_eq_nil_iff]
            intro y hy hye
            exact hknew ((beq_iff_eq.1 hye) ▸ hmem y hy)
          simp [hfe]
      · intro y hy
        rw [List.map_append]
        rcases List.mem_append.1 hy with hy | hy
        · exact List.mem_append.2 (Or.inl (hmem y hy))
        · rw [List.mem_singleton.1 hy]
          exact List.mem_append.2 (Or.inr (by simp))

theorem groupByKey_keys_nodup {α : Type} (key : α → String) (l : List α) :
    ((groupByKey key l).map Prod.fst).Nodup :=
  (groupByKey_invariant key l).1

theorem groupByKey_mem_filter {α : Type} (key : α → String) (l : List α)
    {p : String × List α} (hp : p ∈ groupByKey key l) :
    p.2 = l.filter (fun y => key y == p.1) :=
  ((groupByKey_invariant key l).2.1 p hp).1

theorem groupByKey_mem_ne_nil {α : Type} (key : α → String) (l : List α)
    {p : String × List α} (hp : p ∈ groupByKey key l) : p.2 ≠ [] :=
  ((groupByKey_invariant key l).2.1 p hp).2

theorem groupByKey_mem_keys {α : Type} (key : α → String) (l : List α)
    {x : α} (hx : x ∈ l) : key x ∈ (groupByKey key l).map Prod.fst :=
  (groupByKey_invariant key l).2.2 x hx

theorem groupByKey_eq_keys_map {α : Type} (key : α → String) (l : List α) :
    groupByKey key l = ((groupByKey key l).map Prod.fst).map
      (fun k => (k, l.filter (fun y => key y == k))) := by
  rw [List.map_map]
  conv_lhs => rw [← List.map_id (groupByKey key l)]
  refine List.map_congr_left ?_
  intro p hp
  have h := groupByKey_mem_filter key l hp
  show p = (p.1, l.filter (fun y => key y == p.1))
  exact Prod.ext rfl h

/-! ## The scorer factors through the (rule_id, weight) projection -/

theorem groupContribution_eq_w (items : List Finding) :
    groupContribution items = wGroupContribution (items.map projFW) := by
  unfold groupContribution wGroupContribution
  rw [← sortDescBy_map (fun f : Finding => f.weight) (fun p : String × Int => p.2)
      projFW (fun _ => rfl)]
  cases h : sortDescBy (fun f : Finding => f.weight) items with
  | nil => simp
  | cons f rest =>
    simp only [List.map_cons, List.map_map]
    rfl

theorem cappedContribution_eq_w (rid : String) (items : List Finding) :
    cappedContribution rid items = wCappedContribution rid (items.map projFW) := by
  unfold cappedContribution wCappedContribution
  cases RULE_MAX_CONTRIBUTION rid <;> simp [groupContribution_eq_w]

theorem groupByKey_map {α β : Type} (key : α → String) (key2 : β → String) (f : α → β)
    (hk : ∀ a, key2 (f a) = key a) (l : List α) :
    groupByKey key2 (l.map f)
      = (groupByKey key l).map (fun p => (p.1, p.2.map f)) := by
  suffices h : ∀ (l : List α) (acc : List (String × List α)),
      (l.map f).foldl (addToGroups key2) (acc.map (fun p => (p.1, p.2.map f)))
        = (l.foldl (addToGroups key) acc).map (fun p => (p.1, p.2.map f)) by
    have := h l []
    simpa [groupByKey] using this
  intro l
  induction l with
  | nil => intro acc; rfl
  | cons x xs ih =>
    intro acc
    have hany : ∀ (s : String) (acc2 : List (String × List α)),
        ((acc2.map (fun p => (p.1, p.2.map f))).any (fun p => p.1 == s))
          = acc2.any (fun p => p.1 == s) := by
      intro s acc2
      induction acc2 with
      | nil => rfl
      | cons a as ihh => simp [ihh]
    have hstep : addToGroups key2 (acc.map (fun p => (p.1, p.2.map f))) (f x)
        = (addToGroups key acc x).map (fun p => (p.1, p.2.map f)) := by
      unfold addToGroups
      simp only [hk]
      rw [hany (key x) acc]
      by_cases h : acc.any (fun p => p.1 == key x) = true
      · rw [if_pos h, if_pos h, List.map_map, List.map_map]
        refine List.map_congr_left ?_
        intro p _
        by_cases hp : (p.1 == key x) = true
        · simp [Function.comp, hk, hp]
        · simp [Function.comp, hk, hp]
      · rw [if_neg h, if_neg h, List.map_append]
        simp [hk]
    simp only [List.map_cons, List.foldl_cons, hstep]
    exact ih (addToGroups key acc x)

theorem score_eq_wScore (fs : List Finding) :
    score_from_findings fs = wScore (fs.map projFW) := by
  unfold score_from_findings wScore wTotal
  have hg := groupByKey_map (fun f : Finding => f.rule_id) Prod.fst projFW
    (fun _ => rfl) fs
  rw [hg, List.map_map]
  have hc : ((fun p : String × List (String × Int) => wCappedContribution p.1 p.2) ∘
        (fun p : String × List Finding => (p.1, p.2.map projFW)))
      = fun p : String × List Finding => cappedContribution p.1 p.2 := by
    funext p
    simp [Function.comp, cappedContribution_eq_w]
  rw [hc]

/-! ## Monotonicity and bounds of the projected scorer -/

instance : IsAntisymm Int (fun a b => b ≤ a) :=
  ⟨fun _ _ h1 h2 => le_antisymm h2 h1⟩

theorem wGroupContribution_eq_wlc (items : List (String × Int)) :
    wGroupContribution items
      = weightListContribution
          ((sortDescBy (fun p : String × Int => p.2) items).map Prod.snd) := by
  unfold wGroupContribution weightListContribution
  cases h : sortDescBy (fun p : String × Int => p.2) items with
  | nil => simp
  | cons f rest =>
    simp only [List.map_cons, List.map_map]
    rfl

theorem wGroupContribution_perm {l1 l2 : List (String × Int)} (h : l1.Perm l2) :
    wGroupContribution l1 = wGroupContribution l2 := by
  rw [wGroupContribution_eq_wlc, wGroupContribution_eq_wlc]
  have h1 : (sortDescBy (fun p : String × Int => p.2) l1).map Prod.snd
      = sortDescBy id (l1.map Prod.snd) :=
    sortDescBy_map _ id Prod.snd (fun _ => rfl) l1
  have h2 : (sortDescBy (fun p : String × Int => p.2) l2).map Prod.snd
      = sortDescBy id (l2.map Prod.snd) :=
    sortDescBy_map _ id Prod.snd (fun _ => rfl) l2
  rw [h1, h2]
  have hpm : (sortDescBy id (l1.map Prod.snd)).Perm (sortDescBy id (l2.map Prod.snd)) :=
    (sortDescBy_perm id _).trans ((h.map Prod.snd).trans (sortDescBy_perm id _).symm)
  have hs1 := sorted_sortDescBy id (l1.map Prod.snd)
  have hs2 := sorted_sortDescBy id (l2.map Prod.snd)
  simp only [id] at hs1 hs2
  rw [List.eq_of_perm_of_sorted hpm hs1 hs2]

theorem weightListContribution_nonneg (ws : List Int) : 0 ≤ weightListContribution ws := by
  cases ws with
  | nil => simp [weightListContribution]
  | cons w rest =>
    unfold weightListContribution
    have h1 : (0:Int) ≤ max 0 w := le_max_left 0 w
    have h2 : (0:Int) ≤ (rest.map (fun v => max 1 (max 0 v / 2))).sum := by
      refine List.sum_nonneg ?_
      intro x hx
      rcases List.mem_map.1 hx with ⟨v, _, rfl⟩
      exact le_trans (by norm_num) (le_max_left 1 (max 0 v / 2))
    exact add_nonneg h1 h2

theorem wlc_cons (a : Int) (t : List Int) :
    weightListContribution (a :: t)
      = max 0 a + (t.map (fun v => max 1 (max 0 v / 2))).sum := rfl

theorem wlc_insert_le (w : Int) (s : List Int) :
    weightListContribution s ≤ weightListContribution (insertDescBy id w s) := by
  cases s with
  | nil => simp [insertDescBy, weightListContribution, le_max_left]
  | cons a t =>
    by_cases h : id w < id a
    · simp only [insertDescBy, if_pos h]
      rw [wlc_cons, wlc_cons]
      have hsum : ((insertDescBy id w t).map (fun v => max 1 (max 0 v / 2))).sum
          = (max 1 (max 0 w / 2)) + (t.map (fun v => max 1 (max 0 v / 2))).sum := by
        have hp := (insertDescBy_perm id w t).map (fun v => max 1 (max 0 v / 2))
        rw [hp.sum_eq]
        simp
      rw [hsum]
      have h1 : (1:Int) ≤ max 1 (max 0 w / 2) := le_max_left _ _
      omega
    · simp only [insertDescBy, if_neg h]
      rw [wlc_cons, wlc_cons w (a :: t)]
      simp only [List.map_cons, List.sum_cons]
      have ha : id a ≤ id w := not_lt.1 h
      have h1 : max 0 a ≤ max 0 w := max_le_max le_rfl ha
      have h2 : (1:Int) ≤ max 1 (max 0 a / 2) := le_max_left _ _
      omega

theorem wlc_insert_cons (w a : Int) (t : List Int) :
    weightListContribution (a :: t) + 1
      ≤ weightListContribution (insertDescBy id w (a :: t)) := by
  by_cases h : id w < id a
  · simp only [insertDescBy, if_pos h]
    rw [wlc_cons, wlc_cons]
    have hsum : ((insertDescBy id w t).map (fun v => max 1 (max 0 v / 2))).sum
        = (max 1 (max 0 w / 2)) + (t.map (fun v => max 1 (max 0 v / 2))).sum := by
      have hp := (insertDescBy_perm id w t).map (fun v => max 1 (max 0 v / 2))
      rw [hp.sum_eq]
      simp
    rw [hsum]
    have h1 : (1:Int) ≤ max 1 (max 0 w / 2) := le_max_left _ _
    omega
  · simp only [insertDescBy, if_neg h]
    rw [wlc_cons, wlc_cons w (a :: t)]
    simp only [List.map_cons, List.sum_cons]
    have ha : id a ≤ id w := not_lt.1 h
    have h1 : max 0 a ≤ max 0 w := max_le_max le_rfl ha
    have h2 : (1:Int) ≤ max 1 (max 0 a / 2) := le_max_left _ _
    omega

theorem sortDescBy_snd_cons (x : String × Int) (l : List (String × Int)) :
    (sortDescBy (fun p : String × Int => p.2) (x :: l)).map Prod.snd
      = insertDescBy id x.2 ((sortDescBy (fun p : String × Int => p.2) l).map Prod.snd) := by
  have hsort : sortDescBy (fun p : String × Int => p.2) (x :: l)
      = insertDescBy (fun p : String × Int => p.2) x
          (sortDescBy (fun p : String × Int => p.2) l) := rfl
  rw [hsort, insertDescBy_map (fun p : String × Int => p.2) id Prod.snd (fun _ => rfl)]

theorem wGroupContribution_cons_le (x : String × Int) (l : List (String × Int)) :
    wGroupContribution l ≤ wGroupContribution (x :: l) := by
  rw [wGroupContribution_eq_wlc, wGroupContribution_eq_wlc, sortDescBy_snd_cons]
  exact wlc_insert_le x.2 _

theorem wGroupContribution_cons_succ (x : String × Int) (l : List (String × Int))
    (hl : l ≠ []) :
    wGroupContribution l + 1 ≤ wGroupContribution (x :: l) := by
  rw [wGroupContribution_eq_wlc, wGroupContribution_eq_wlc, sortDescBy_snd_cons]
  have hne : (sortDescBy (fun p : String × Int => p.2) l).map Prod.snd ≠ [] := by
    intro he
    have hlen := congrArg List.length he
    simp only [List.length_map, List.length_nil] at hlen
    have hp := (sortDescBy_perm (fun p : String × Int => p.2) l).length_eq
    rw [hlen] at hp
    exact hl (List.length_eq_zero.1 hp.symm)
  cases hs : (sortDescBy (fun p : String × Int => p.2) l).map Prod.snd with
  | nil => exact absurd hs hne
  | cons a t => exact wlc_insert_cons x.2 a t

theorem wGroupContribution_singleton (x : String × Int) :
    wGroupContribution [x] = max 0 x.2 := by
  simp [wGroupContribution, sortDescBy, insertDescBy]

theorem sum_map_maxhalf_nonneg (ws : List Int) :
    0 ≤ (ws.map (fun v => max 1 (max 0 v / 2))).sum := by
  refine List.sum_nonneg ?_
  intro x hx
  rcases List.mem_map.1 hx with ⟨v, _, rfl⟩
  exact le_trans (by norm_num) (le_max_left 1 (max 0 v / 2))

theorem wGroupContribution_ge_mem (l : List (String × Int)) (x : String × Int)
    (hx : x ∈ l) : max 0 x.2 ≤ wGroupContribution l := by
  have hmem : x ∈ sortDescBy (fun p : String × Int => p.2) l :=
    ((sortDescBy_perm (fun p : String × Int => p.2) l).mem_iff).2 hx
  rw [wGroupContribution_eq_wlc]
  cases hs : sortDescBy (fun p : String × Int => p.2) l with
  | nil => rw [hs] at hmem; cases hmem
  | cons h t =>
    rw [hs] at hmem
    have hsorted := sorted_sortDescBy (fun p : String × Int => p.2) l
    rw [hs, List.sorted_cons] at hsorted
    have hxh : x.2 ≤ h.2 := by
      rcases List.mem_cons.1 hmem with he | ht
      · exact he ▸ le_rfl
      · exact hsorted.1 x ht
    simp only [List.map_cons]
    rw [wlc_cons]
    have h2 := sum_map_maxhalf_nonneg (t.map Prod.snd)
    have h1 : max 0 x.2 ≤ max 0 h.2 := max_le_max le_rfl hxh
    omega

theorem wGroupContribution_nonneg (items : List (String × Int)) :
    0 ≤ wGroupContribution items := by
  rw [wGroupContribution_eq_wlc]
  exact weightListContribution_nonneg _

theorem sublist_exists_perm_append {α : Type} {l1 l2 : List α} (h : l1.Sublist l2) :
    ∃ m, l2.Perm (m ++ l1) := by
  induction h with
  | slnil => exact ⟨[], by simp⟩
  | cons x _ ih =>
    obtain ⟨m, hm⟩ := ih
    exact ⟨x :: m, hm.cons x⟩
  | cons₂ x _ ih =>
    obtain ⟨m, hm⟩ := ih
    exact ⟨m, (hm.cons x).trans List.perm_middle.symm⟩

theorem subperm_exists_perm_append {α : Type} {l1 l2 : List α} (h : l1.Subperm l2) :
    ∃ m, l2.Perm (m ++ l1) := by
  obtain ⟨w, hw, hs⟩ := h
  obtain ⟨m, hm⟩ := sublist_exists_perm_append hs
  exact ⟨m, hm.trans (List.Perm.append_left m hw)⟩

theorem wGroupContribution_subperm {l1 l2 : List (String × Int)}
    (h : l1.Subperm l2) : wGroupContribution l1 ≤ wGroupContribution l2 := by
  obtain ⟨m, hm⟩ := subperm_exists_perm_append h
  rw [wGroupContribution_perm hm]
  clear hm h
  induction m with
  | nil => simp
  | cons a m ih => exact le_trans ih (wGroupContribution_cons_le a (m ++ l1))

theorem subperm_map {α β : Type} (f : α → β) {l1 l2 : List α} (h : l1.Subperm l2) :
    (l1.map f).Subperm (l2.map f) := by
  obtain ⟨w, hw, hs⟩ := h
  exact ⟨w.map f, hw.map f, hs.map f⟩

theorem sum_le_sum_of_subperm {l1 l2 : List Int} (h : l1.Subperm l2)
    (hn : ∀ x ∈ l2, 0 ≤ x) : l1.sum ≤ l2.sum := by
  obtain ⟨m, hm⟩ := subperm_exists_perm_append h
  rw [hm.sum_eq, List.sum_append]
  have hms : (0:Int) ≤ m.sum := by
    refine List.sum_nonneg ?_
    intro x hx
    exact hn x (hm.mem_iff.2 (List.mem_append.2 (Or.inl hx)))
  omega

theorem RULE_MAX_bounds (rid : String) (cap : Int)
    (h : RULE_MAX_CONTRIBUTION rid = some cap) : 0 ≤ cap ∧ cap < 100 := by
  unfold RULE_MAX_CONTRIBUTION at h
  split_ifs at h <;> (injection h with h; omega)

theorem wCappedContribution_nonneg (rid : String) (items : List (String × Int)) :
    0 ≤ wCappedContribution rid items := by
  unfold wCappedContribution
  cases hc : RULE_MAX_CONTRIBUTION rid with
  | none => exact wGroupContribution_nonneg items
  | some cap =>
    exact le_min (RULE_MAX_bounds rid cap hc).1 (wGroupContribution_nonneg items)

theorem wCappedContribution_subperm (rid : String) {l1 l2 : List (String × Int)}
    (h : l1.Subperm l2) :
    wCappedContribution rid l1 ≤ wCappedContribution rid l2 := by
  unfold wCappedContribution
  cases RULE_MAX_CONTRIBUTION rid with
  | none => exact wGroupContribution_subperm h
  | some cap => exact min_le_min le_rfl (wGroupContribution_subperm h)

theorem wCappedContribution_le_cap (rid : String) (items : List (String × Int))
    (cap : Int) (h : RULE_MAX_CONTRIBUTION rid = some cap) :
    wCappedContribution rid items ≤ cap := by
  unfold wCappedContribution
  rw [h]
  exact min_le_left cap _

theorem mem_groupByKey_keys_iff {α : Type} (key : α → String) (l : List α)
    (k : String) :
    (k ∈ (groupByKey key l).map Prod.fst) ↔ ∃ x ∈ l, key x = k := by
  constructor
  · intro h
    rcases List.mem_map.1 h with ⟨p, hp, hpe⟩
    have hfl := groupByKey_mem_filter key l hp
    have hne := groupByKey_mem_ne_nil key l hp
    rcases List.exists_mem_of_ne_nil p.2 hne with ⟨x, hx⟩
    rw [hfl] at hx
    rcases List.mem_filter.1 hx with ⟨hxl, hxk⟩
    exact ⟨x, hxl, hpe ▸ beq_iff_eq.1 hxk⟩
  · rintro ⟨x, hx, rfl⟩
    exact groupByKey_mem_keys key l hx

theorem wTotal_eq_keys (W : List (String × Int)) :
    wTotal W = (((groupByKey Prod.fst W).map Prod.fst).map
      (fun k => wCappedContribution k (W.filter (fun p => p.1 == k)))).sum := by
  unfold wTotal
  conv_lhs => rw [groupByKey_eq_keys_map Prod.fst W]
  rw [List.map_map]
  rfl

theorem wTotal_nonneg (W : List (String × Int)) : 0 ≤ wTotal W := by
  unfold wTotal
  refine List.sum_nonneg ?_
  intro x hx
  rcases List.mem_map.1 hx with ⟨p, _, rfl⟩
  exact wCappedContribution_nonneg p.1 p.2

theorem wTotal_subperm {W1 W2 : List (String × Int)} (h : W1.Subperm W2) :
    wTotal W1 ≤ wTotal W2 := by
  rw [wTotal_eq_keys W1, wTotal_eq_keys W2]
  set K1 := (groupByKey (Prod.fst (α := String) (β := Int)) W1).map Prod.fst with hK1
  set K2 := (groupByKey (Prod.fst (α := String) (β := Int)) W2).map Prod.fst with hK2
  have step1 : (K1.map (fun k => wCappedContribution k (W1.filter (fun p => p.1 == k)))).sum
      ≤ (K1.map (fun k => wCappedContribution k (W2.filter (fun p => p.1 == k)))).sum := by
    refine List.sum_le_sum ?_
    intro k _
    exact wCappedContribution_subperm k (List.Subperm.filter _ h)
  have hsubK : K1 ⊆ K2 := by
    intro k hk
    rw [hK1, mem_groupByKey_keys_iff] at hk
    rcases hk with ⟨p, hp, hpe⟩
    rw [hK2, mem_groupByKey_keys_iff]
    exact ⟨p, h.subset hp, hpe⟩
  have hndK : K1.Nodup := groupByKey_keys_nodup _ W1
  have hsp : K1.Subperm K2 := hndK.subperm hsubK
  have step2 : (K1.map (fun k => wCappedContribution k (W2.filter (fun p => p.1 == k)))).sum
      ≤ (K2.map (fun k => wCappedContribution k (W2.filter (fun p => p.1 == k)))).sum := by
    refine sum_le_sum_of_subperm (subperm_map _ hsp) ?_
    intro x hx
    rcases List.mem_map.1 hx with ⟨k, _, rfl⟩
    exact wCappedContribution_nonneg k _
  exact le_trans step1 step2

theorem filter_key_cons_self (x : String × Int) (W : List (String × Int)) :
    (x :: W).filter (fun p => p.1 == x.1) = x :: W.filter (fun p => p.1 == x.1) := by
  rw [List.filter_cons]
  simp

theorem filter_key_cons_ne (x : String × Int) (W : List (String × Int)) (k : String)
    (hk : k ≠ x.1) :
    (x :: W).filter (fun p => p.1 == k) = W.filter (fun p => p.1 == k) := by
  rw [List.filter_cons]
  have : (x.1 == k) = false := beq_eq_false_iff_ne.2 (fun he => hk he.symm)
  simp [this]

theorem perm_of_nodup_of_same_mem {α : Type} {l1 l2 : List α}
    (h1 : l1.Nodup) (h2 : l2.Nodup) (hm : ∀ a, a ∈ l1 ↔ a ∈ l2) : l1.Perm l2 :=
  (h1.subperm (fun a ha => (hm a).1 ha)).antisymm
    (h2.subperm (fun a ha => (hm a).2 ha))

theorem wTotal_cons_succ (x : String × Int) (W : List (String × Int))
    (hcap : RULE_MAX_CONTRIBUTION x.1 = none) (hw : 1 ≤ x.2) :
    wTotal W + 1 ≤ wTotal (x :: W) := by
  rw [wTotal_eq_keys W, wTotal_eq_keys (x :: W)]
  set g1 : String → Int :=
    fun k => wCappedContribution k (W.filter (fun p => p.1 == k)) with hg1
  set g2 : String → Int :=
    fun k => wCappedContribution k ((x :: W).filter (fun p => p.1 == k)) with hg2
  set K1 := (groupByKey (Prod.fst (α := String) (β := Int)) W).map Prod.fst with hK1
  set K2 := (groupByKey (Prod.fst (α := String) (β := Int)) (x :: W)).map Prod.fst with hK2
  have hnd1 : K1.Nodup := groupByKey_keys_nodup _ W
  have hnd2 : K2.Nodup := groupByKey_keys_nodup _ (x :: W)
  have hK2mem : ∀ k, k ∈ K2 ↔ (k = x.1 ∨ k ∈ K1) := by
    intro k
    rw [hK2, mem_groupByKey_keys_iff, hK1, mem_groupByKey_keys_iff]
    constructor
    · rintro ⟨p, hp, hpe⟩
      rcases List.mem_cons.1 hp with rfl | hp
      · exact Or.inl hpe.symm
      · exact Or.inr ⟨p, hp, hpe⟩
    · rintro (rfl | ⟨p, hp, hpe⟩)
      · exact ⟨x, List.mem_cons_self x W, rfl⟩
      · exact ⟨p, List.mem_cons_of_mem x hp, hpe⟩
  have hgeq : ∀ k, k ≠ x.1 → g2 k = g1 k := by
    intro k hk
    show wCappedContribution k ((x :: W).filter (fun p => p.1 == k))
        = wCappedContribution k (W.filter (fun p => p.1 == k))
    rw [filter_key_cons_ne x W k hk]
  by_cases hmem : x.1 ∈ K1
  · -- the key already occurs: its group gains one finding
    have hKperm : K2.Perm K1 := by
      refine perm_of_nodup_of_same_mem hnd2 hnd1 ?_
      intro k
      rw [hK2mem k]
      constructor
      · rintro (rfl | hk) <;> [exact hmem; exact hk]
      · exact Or.inr
    have hsum2 : (K2.map g2).sum = (K1.map g2).sum := (hKperm.map g2).sum_eq
    have hKe : K1.Perm (x.1 :: K1.erase x.1) := List.perm_cons_erase hmem
    have hsum2e : (K1.map g2).sum = g2 x.1 + ((K1.erase x.1).map g2).sum := by
      rw [(hKe.map g2).sum_eq]
      simp
    have hsum1e : (K1.map g1).sum = g1 x.1 + ((K1.erase x.1).map g1).sum := by
      rw [(hKe.map g1).sum_eq]
      simp
    have hde : ((K1.erase x.1).map g2).sum = ((K1.erase x.1).map g1).sum := by
      refine congrArg List.sum ?_
      refine List.map_congr_left ?_
      intro k hk
      exact hgeq k ((hnd1.mem_erase_iff.1 hk).1)
    have hstep : g1 x.1 + 1 ≤ g2 x.1 := by
      show wCappedContribution x.1 (W.filter (fun p => p.1 == x.1)) + 1
          ≤ wCappedContribution x.1 ((x :: W).filter (fun p => p.1 == x.1))
      rw [filter_key_cons_self]
      simp only [wCappedContribution, hcap]
      have hne : W.filter (fun p => p.1 == x.1) ≠ [] := by
        rw [hK1, mem_groupByKey_keys_iff] at hmem
        rcases hmem with ⟨p, hp, hpe⟩
        intro he
        have : p ∈ W.filter (fun p => p.1 == x.1) :=
          List.mem_filter.2 ⟨hp, beq_iff_eq.2 hpe⟩
        rw [he] at this
        cases this
      exact wGroupContribution_cons_succ x _ hne
    rw [hsum2, hsum2e, hsum1e, hde]
    omega
  · -- a new key appears, contributing its own group
    have hKperm : K2.Perm (x.1 :: K1) := by
      refine perm_of_nodup_of_same_mem hnd2 (List.nodup_cons.2 ⟨hmem, hnd1⟩) ?_
      intro k
      rw [hK2mem k, List.mem_cons]
    have hsum2 : (K2.map g2).sum = g2 x.1 + (K1.map g2).sum := by
      rw [(hKperm.map g2).sum_eq]
      simp
    have hde : (K1.map g2).sum = (K1.map g1).sum := by
      refine congrArg List.sum ?_
      refine List.map_congr_left ?_
      intro k hk
      refine hgeq k ?_
      intro he
      exact hmem (he ▸ hk)
    have hfe : W.filter (fun p => p.1 == x.1) = [] := by
      rw [List.filter_eq_nil_iff]
      intro p hp hpe
      rw [hK1, mem_groupByKey_keys_iff] at hmem
      exact hmem ⟨p, hp, beq_iff_eq.1 hpe⟩
    have hx1 : 1 ≤ g2 x.1 := by
      show 1 ≤ wCappedContribution x.1 ((x :: W).filter (fun p => p.1 == x.1))
      rw [filter_key_cons_self, hfe]
      simp only [wCappedContribution, hcap]
      rw [wGroupContribution_singleton]
      omega
    rw [hsum2, hde]
    omega

theorem wScore_nonneg (W : List (String × Int)) : 0 ≤ wScore W := le_max_left 0 _

theorem wScore_le_100 (W : List (String × Int)) : wScore W ≤ 100 := by
  unfold wScore
  have h1 : min 100 (wTotal W) ≤ 100 := min_le_left _ _
  omega

theorem wScore_subperm {W1 W2 : List (String × Int)} (h : W1.Subperm W2) :
    wScore W1 ≤ wScore W2 := by
  unfold wScore
  have := wTotal_subperm h
  have h1 : min 100 (wTotal W1) ≤ min 100 (wTotal W2) := min_le_min le_rfl this
  omega

theorem wScore_eq_total_of_lt (W : List (String × Int)) (h : wScore W < 100) :
    wScore W = wTotal W := by
  have h0 := wTotal_nonneg W
  unfold wScore at h ⊢
  omega

theorem wScore_strict {x : String × Int} {W1 W2 : List (String × Int)}
    (h : (x :: W1).Subperm W2) (hcap : RULE_MAX_CONTRIBUTION x.1 = none)
    (hw : 1 ≤ x.2) (hlt : wScore W1 < 100) : wScore W1 < wScore W2 := by
  have h1 : wTotal W1 + 1 ≤ wTotal (x :: W1) := wTotal_cons_succ x W1 hcap hw
  have h2 : wTotal (x :: W1) ≤ wTotal W2 := wTotal_subperm h
  have h0 := wTotal_nonneg W1
  have h02 := wTotal_nonneg W2
  unfold wScore at hlt ⊢
  omega

/-- The guaranteed floor a single finding of a given rule id and weight puts
under its group's capped contribution. -/
def capFloor (rid : String) (w : Int) : Int :=
  match RULE_MAX_CONTRIBUTION rid with
  | some c => min c (max 0 w)
  | none => max 0 w

theorem capFloor_le_capped (W : List (String × Int)) (p : String × Int)
    (hp : p ∈ W) :
    capFloor p.1 p.2 ≤ wCappedContribution p.1 (W.filter (fun q => q.1 == p.1)) := by
  have hmem : p ∈ W.filter (fun q => q.1 == p.1) :=
    List.mem_filter.2 ⟨hp, beq_iff_eq.2 rfl⟩
  have hg : max 0 p.2 ≤ wGroupContribution (W.filter (fun q => q.1 == p.1)) :=
    wGroupContribution_ge_mem _ p hmem
  unfold capFloor wCappedContribution
  cases RULE_MAX_CONTRIBUTION p.1 with
  | none => exact hg
  | some c => exact min_le_min le_rfl hg

theorem wTotal_ge_selected (W : List (String × Int)) (sel : List (String × Int))
    (hnd : (sel.map Prod.fst).Nodup) (hsub : ∀ p ∈ sel, p ∈ W) :
    (sel.map (fun p => capFloor p.1 p.2)).sum ≤ wTotal W := by
  rw [wTotal_eq_keys W]
  have step1 : (sel.map (fun p => capFloor p.1 p.2)).sum
      ≤ (sel.map (fun p => wCappedContribution p.1 (W.filter (fun q => q.1 == p.1)))).sum := by
    refine List.sum_le_sum ?_
    intro p hp
    exact capFloor_le_capped W p (hsub p hp)
  have hmm : sel.map (fun p => wCappedContribution p.1 (W.filter (fun q => q.1 == p.1)))
      = (sel.map Prod.fst).map
          (fun k => wCappedContribution k (W.filter (fun q => q.1 == k))) := by
    rw [List.map_map]
    rfl
  have hsubK : (sel.map Prod.fst)
      ⊆ (groupByKey (Prod.fst (α := String) (β := Int)) W).map Prod.fst := by
    intro k hk
    rcases List.mem_map.1 hk with ⟨p, hp, rfl⟩
    rw [mem_groupByKey_keys_iff]
    exact ⟨p, hsub p hp, rfl⟩
  have hsp := hnd.subperm hsubK
  have step2 : ((sel.map Prod.fst).map
        (fun k => wCappedContribution k (W.filter (fun q => q.1 == k)))).sum
      ≤ (((groupByKey (Prod.fst (α := String) (β := Int)) W).map Prod.fst).map
        (fun k => wCappedContribution k (W.filter (fun q => q.1 == k)))).sum := by
    refine sum_le_sum_of_subperm (subperm_map _ hsp) ?_
    intro y hy
    rcases List.mem_map.1 hy with ⟨k, _, rfl⟩
    exact wCappedContribution_nonneg k _
  rw [hmm] at step1
  exact le_trans step1 step2

theorem wScore_ge (W : List (String × Int)) (b : Int) (hb : b ≤ 100)
    (h : b ≤ wTotal W) : b ≤ wScore W := by
  unfold wScore
  omega

/-! ## Claims C1-C3: the scorer -/

theorem groupContribution_eq_spec_of_nonneg (items : List Finding)
    (h : ∀ f ∈ items, 0 ≤ f.weight) :
    groupContribution items = groupContribution_spec items := by
  unfold groupContribution groupContribution_spec
  cases hs : sortDescBy (fun f : Finding => f.weight) items with
  | nil => rfl
  | cons f rest =>
    have hmem : ∀ g ∈ f :: rest, g ∈ items := by
      intro g hg
      exact ((sortDescBy_perm (fun f : Finding => f.weight) items).mem_iff).1 (hs ▸ hg)
    have hf : max 0 f.weight = f.weight :=
      max_eq_right (h f (hmem f (List.mem_cons_self f rest)))
    have hrest : rest.map (fun g => max 1 (max 0 g.weight / 2))
        = rest.map (fun g => max 1 (g.weight / 2)) := by
      refine List.map_congr_left ?_
      intro g hg
      rw [max_eq_right (h g (hmem g (List.mem_cons_of_mem f hg)))]
    show max 0 f.weight + (rest.map (fun g => max 1 (max 0 g.weight / 2))).sum
        = f.weight + (rest.map (fun g => max 1 (g.weight / 2))).sum
    rw [hf, hrest]

/-- Claim C1: the scorer groups findings by rule id (each group is exactly
the findings carrying that rule id, in order), and, with the group sorted
descending by weight, the highest-weight finding contributes its full weight
while every later finding contributes `max(1, weight / 2)` with integer
division; the group's pre-cap contribution is the sum of these terms.  The
weights are non-negative per the data model (`Finding.weight` is a
non-negative integer). -/
theorem c1_scorer_grouping_and_diminishing_returns
    (findings : List Finding) (hw : ∀ f ∈ findings, 0 ≤ f.weight)
    (rid : String) (items : List Finding)
    (hmem : (rid, items) ∈ groupByKey (fun f : Finding => f.rule_id) findings) :
    items = findings.filter (fun f => f.rule_id == rid)
      ∧ groupContribution items = groupContribution_spec items := by
  have hfl : items = findings.filter (fun f => f.rule_id == rid) :=
    groupByKey_mem_filter (fun f : Finding => f.rule_id) findings hmem
  refine ⟨hfl, ?_⟩
  refine groupContribution_eq_spec_of_nonneg items ?_
  intro f hf
  rw [hfl] at hf
  exact hw f (List.mem_filter.1 hf).1

def wfA : Finding :=
  { rule_id := "RA", title := "a", severity := "high", weight := 10,
    description := "", evidence := [] }

def wfB : Finding :=
  { rule_id := "RA", title := "b", severity := "high", weight := 7,
    description := "", evidence := [] }

def wfC : Finding :=
  { rule_id := "RB", title := "c", severity := "low", weight := 5,
    description := "", evidence := [] }

/-- Witness for C1 at a concrete findings list. -/
theorem c1_witness :
    [wfA, wfB] = [wfA, wfB, wfC].filter (fun f => f.rule_id == "RA")
      ∧ groupContribution [wfA, wfB] = groupContribution_spec [wfA, wfB] :=
  c1_scorer_grouping_and_diminishing_returns [wfA, wfB, wfC] (by decide)
    "RA" [wfA, wfB] (by decide)

/-- Claim C2: the three defined per-rule caps are JS_HIGH_ENTROPY_INLINE at
12, JS_OBFUSCATION_APIS at 40 and JS_LOCALHOST_CALLS at 36, and for any
rule-id group in the scorer's grouping whose rule id has a defined cap, the
group's (capped) contribution to the total never exceeds that cap, however
many findings the group contains. -/
theorem c2_per_rule_caps :
    (RULE_MAX_CONTRIBUTION "JS_HIGH_ENTROPY_INLINE" = some 12
      ∧ RULE_MAX_CONTRIBUTION "JS_OBFUSCATION_APIS" = some 40
      ∧ RULE_MAX_CONTRIBUTION "JS_LOCALHOST_CALLS" = some 36)
    ∧ ∀ (findings : List Finding) (rid : String) (items : List Finding) (cap : Int),
        (rid, items) ∈ groupByKey (fun f : Finding => f.rule_id) findings →
        RULE_MAX_CONTRIBUTION rid = some cap →
        cappedContribution rid items ≤ cap := by
  refine ⟨⟨rfl, rfl, rfl⟩, ?_⟩
  intro findings rid items cap _ hcap
  unfold cappedContribution
  rw [hcap]
  exact min_le_left cap _

def entF : Finding :=
  { rule_id := "JS_HIGH_ENTROPY_INLINE",
    title := "High-entropy inline JavaScript (often minified)",
    severity := "low", weight := 6,
    description := "", evidence := [] }

/-- Witness for C2: ten repeated entropy findings stay at or below the cap. -/
theorem c2_witness :
    cappedContribution "JS_HIGH_ENTROPY_INLINE" (List.replicate 10 entF) ≤ 12 :=
  c2_per_rule_caps.2 (List.replicate 10 entF) "JS_HIGH_ENTROPY_INLINE"
    (List.replicate 10 entF) 12 (by decide) (by decide)

/-- Claim C3: every computed score lies in [0, 100], and the rating is the
pure function of the score with boundaries at 45 and 80: 44 maps to
low_risk, 45 and 79 to medium_risk, 80 to high_risk; in general a score of
at least 80 is high_risk, at least 45 but below 80 is medium_risk, and
below 45 is low_risk. -/
theorem c3_score_bounds_and_rating (findings : List Finding) (s : Int) :
    (0 ≤ score_from_findings findings ∧ score_from_findings findings ≤ 100)
    ∧ (rating_of 44 = "low_risk" ∧ rating_of 45 = "medium_risk"
       ∧ rating_of 79 = "medium_risk" ∧ rating_of 80 = "high_risk")
    ∧ (80 ≤ s → rating_of s = "high_risk")
    ∧ (45 ≤ s → s < 80 → rating_of s = "medium_risk")
    ∧ (s < 45 → rating_of s = "low_risk") := by
  refine ⟨⟨?_, ?_⟩, ⟨rfl, rfl, rfl, rfl⟩, ?_, ?_, ?_⟩
  · rw [score_eq_wScore]
    exact wScore_nonneg _
  · rw [score_eq_wScore]
    exact wScore_le_100 _
  · intro h
    unfold rating_of
    rw [if_pos h]
  · intro h1 h2
    unfold rating_of
    rw [if_neg (by omega), if_pos h1]
  · intro h
    unfold rating_of
    rw [if_neg (by omega), if_neg (by omega)]

/-- Witness for C3 at concrete scores and findings. -/
theorem c3_witness :
    rating_of 100 = "high_risk" ∧ rating_of 60 = "medium_risk"
      ∧ rating_of 10 = "low_risk" ∧ 0 ≤ score_from_findings [wfA, wfC] :=
  ⟨(c3_score_bounds_and_rating [] 100).2.2.1 (by decide),
   (c3_score_bounds_and_rating [] 60).2.2.2.1 (by decide) (by decide),
   (c3_score_bounds_and_rating [] 10).2.2.2.2 (by decide),
   (c3_score_bounds_and_rating [wfA, wfC] 0).1.1⟩

/-! ## Claim C4: failure isolation in the engine -/

theorem catMap_append {α β : Type} (f : α → List β) (l1 l2 : List α) :
    catMap f (l1 ++ l2) = catMap f l1 ++ catMap f l2 := by
  induction l1 with
  | nil => rfl
  | cons x xs ih => simp [catMap, ih]

theorem mem_catMap {α β : Type} {f : α → List β} {x : β} {l : List α} :
    x ∈ catMap f l ↔ ∃ a ∈ l, x ∈ f a := by
  induction l with
  | nil => simp [catMap]
  | cons a as ih =>
    simp only [catMap, List.mem_append, ih, List.mem_cons]
    constructor
    · rintro (hx | ⟨b, hb, hx⟩)
      · exact ⟨a, Or.inl rfl, hx⟩
      · exact ⟨b, Or.inr hb, hx⟩
    · rintro ⟨b, rfl | hb, hx⟩
      · exact Or.inl hx
      · exact Or.inr ⟨b, hb, hx⟩

theorem runRuleStep_eq (doc : Doc) (ctx : RuleContext) (acc : List Finding)
    (rule : Rule) :
    runRuleStep doc ctx acc rule = acc ++ ruleFindings doc ctx rule := by
  unfold runRuleStep ruleFindings
  cases rule.check doc ctx <;> rfl

theorem evalRules_eq_catMap (rules : List Rule) (doc : Doc) (ctx : RuleContext) :
    evalRules rules doc ctx = catMap (ruleFindings doc ctx) rules := by
  suffices h : ∀ (rules : List Rule) (acc : List Finding),
      rules.foldl (runRuleStep doc ctx) acc = acc ++ catMap (ruleFindings doc ctx) rules by
    have := h rules []
    simpa [evalRules] using this
  intro rules
  induction rules with
  | nil => intro acc; simp [catMap]
  | cons r rs ih =>
    intro acc
    simp only [List.foldl_cons, runRuleStep_eq, ih, catMap, List.append_assoc]

/-- Claim C4: if one rule's check raises, evaluation does not abort - the
engine's findings are exactly the other rules' findings with one synthetic
RULE_ERROR finding (severity low, weight 1, the failure text as description,
the failing rule's id as evidence) inserted at the failing rule's position,
and the remaining rules evaluate exactly as they do when the failing rule is
absent. -/
theorem c4_failure_isolation (doc : Doc) (ctx : RuleContext)
    (pre post : List Rule) (bad : Rule) (e : String)
    (h : bad.check doc ctx = Except.error e) :
    evalRules (pre ++ bad :: post) doc ctx
        = evalRules pre doc ctx
            ++ ruleErrorFinding bad e :: evalRules post doc ctx
      ∧ evalRules (pre ++ post) doc ctx
        = evalRules pre doc ctx ++ evalRules post doc ctx
      ∧ (ruleErrorFinding bad e).rule_id = "RULE_ERROR"
      ∧ (ruleErrorFinding bad e).severity = "low"
      ∧ (ruleErrorFinding bad e).weight = 1
      ∧ (ruleErrorFinding bad e).description = e
      ∧ (ruleErrorFinding bad e).evidence = [("rule_id", bad.rule_id)] := by
  have hbad : ruleFindings doc ctx bad = [ruleErrorFinding bad e] := by
    unfold ruleFindings
    rw [h]
  refine ⟨?_, ?_, rfl, rfl, rfl, rfl, rfl⟩
  · rw [evalRules_eq_catMap, evalRules_eq_catMap, evalRules_eq_catMap,
      catMap_append]
    show _ ++ (ruleFindings doc ctx bad ++ catMap (ruleFindings doc ctx) post) = _
    rw [hbad]
    rfl
  · rw [evalRules_eq_catMap, evalRules_eq_catMap, evalRules_eq_catMap,
      catMap_append]

def emptyDoc : Doc :=
  { forms := [], scripts := [], iframes := [], metas := [], inputs := [],
    links := [], imgs := [], anchors := [] }

def ctx0 : RuleContext :=
  { target := "t", base_url := none, base_domain := "", allowlist := [],
    resource_domains := [] }

def badRule : Rule :=
  { rule_id := "BAD_PLUGIN_RULE", title := "always raises", severity := "high",
    weight := 5, check := fun _ _ => Except.error "boom" }

/-- Witness for C4: a concrete always-raising rule yields exactly the one
synthetic RULE_ERROR finding. -/
theorem c4_witness :
    evalRules ([] ++ badRule :: []) emptyDoc ctx0
      = evalRules [] emptyDoc ctx0
          ++ ruleErrorFinding badRule "boom" :: evalRules [] emptyDoc ctx0 :=
  (c4_failure_isolation emptyDoc ctx0 [] [] badRule "boom" rfl).1

/-! ## Claim C8: get_domain -/

theorem lowChar_beq_at (c : Char) : (lowChar c == '@') = (c == '@') := by
  unfold lowChar
  split <;> simp_all

theorem lowChar_beq_colon (c : Char) : (lowChar c == ':') = (c == ':') := by
  unfold lowChar
  split <;> simp_all

theorem char_beq_comm (a b : Char) : (a == b) = (b == a) := by
  by_cases h : a = b
  · subst h; rfl
  · have h1 : (a == b) = false := beq_eq_false_iff_ne.2 h
    have h2 : (b == a) = false := beq_eq_false_iff_ne.2 (fun he => h he.symm)
    rw [h1, h2]

theorem contains_lcL (ch : Char) (h : ∀ c, (lowChar c == ch) = (c == ch))
    (l : List Char) : (lcL l).contains ch = l.contains ch := by
  induction l with
  | nil => rfl
  | cons c cs ih =>
    simp only [lcL, List.map_cons, List.contains_cons] at *
    rw [char_beq_comm ch (lowChar c), h c, char_beq_comm c ch, ih]

theorem afterFirstChar_lcL (ch : Char) (h : ∀ c, (lowChar c == ch) = (c == ch))
    (l : List Char) : afterFirstChar ch (lcL l) = lcL (afterFirstChar ch l) := by
  induction l with
  | nil => rfl
  | cons c cs ih =>
    simp only [lcL, List.map_cons, afterFirstChar]
    rw [h c]
    by_cases hc : (c == ch) = true
    · simp [hc]
    · simp only [Bool.not_eq_true] at hc
      simp only [hc, if_false, Bool.false_eq_true]
      exact ih

theorem beforeFirstChar_lcL (ch : Char) (h : ∀ c, (lowChar c == ch) = (c == ch))
    (l : List Char) : beforeFirstChar ch (lcL l) = lcL (beforeFirstChar ch l) := by
  induction l with
  | nil => rfl
  | cons c cs ih =>
    simp only [lcL, List.map_cons, beforeFirstChar, List.takeWhile_cons] at *
    have hb : (lowChar c != ch) = (c != ch) := by
      simp only [bne]
      rw [h c]
    rw [hb]
    by_cases hc : (c != ch) = true
    · simp [hc, ih]
    · simp only [Bool.not_eq_true] at hc
      simp [hc]

theorem dropUserinfo_lcL (l : List Char) :
    dropUserinfo (lcL l) = lcL (dropUserinfo l) := by
  unfold dropUserinfo
  rw [contains_lcL '@' lowChar_beq_at l]
  by_cases hc : l.contains '@' = true
  · rw [if_pos hc, if_pos hc, afterFirstChar_lcL '@' lowChar_beq_at l]
  · rw [if_neg hc, if_neg hc]

theorem dropPort_lcL (l : List Char) :
    dropPort (lcL l) = lcL (dropPort l) := by
  unfold dropPort
  rw [contains_lcL ':' lowChar_beq_colon l]
  by_cases hc : l.contains ':' = true
  · rw [if_pos hc, if_pos hc, beforeFirstChar_lcL ':' lowChar_beq_colon l]
  · rw [if_neg hc, if_neg hc]

theorem lcL_isEmpty (l : List Char) : (lcL l).isEmpty = l.isEmpty := by
  cases l <;> rfl

theorem mk_eq_empty_iff (l : List Char) : String.mk l = "" ↔ l = [] := by
  constructor
  · intro h
    have := congrArg String.data h
    simpa using this
  · rintro rfl
    rfl

/-- Claim C8: `get_domain` is total by construction (it is a Lean function);
it returns the empty string exactly when the URL has no (nonempty) host
component, and in every case it returns exactly the lower-cased host
component, i.e. the parsed netloc with surrounding whitespace, userinfo and
port stripped. -/
theorem c8_get_domain_total_and_host (url : String) :
    (get_domain url = "" ↔ hostComponent url = "")
      ∧ get_domain url = lowerS (hostComponent url) := by
  have key : ∀ n : List Char,
      ((if (lcL n).isEmpty then "" else String.mk (dropPort (dropUserinfo (lcL n)))) = ""
          ↔ String.mk (dropPort (dropUserinfo n)) = "")
        ∧ ((if (lcL n).isEmpty then "" else String.mk (dropPort (dropUserinfo (lcL n))))
            = lowerS (String.mk (dropPort (dropUserinfo n)))) := by
    intro n
    cases n with
    | nil => exact ⟨by constructor <;> intro <;> rfl, rfl⟩
    | cons c cs =>
      have hcomm : dropPort (dropUserinfo (lcL (c :: cs)))
          = lcL (dropPort (dropUserinfo (c :: cs))) := by
        rw [dropUserinfo_lcL, dropPort_lcL]
      have hemp : (lcL (c :: cs)).isEmpty = false := rfl
      rw [if_neg (by simp [hemp])]
      constructor
      · rw [mk_eq_empty_iff, mk_eq_empty_iff, hcomm]
        unfold lcL
        rw [List.map_eq_nil_iff]
      · rw [hcomm]
        rfl
  exact key (stripWS (pyNetloc url).data)

/-! ## Claims C9 and C10: allowlisting and IPv4 literals -/

theorem wildcardHit_iff (d : List Char) (item : String) :
    wildcardHit d item = true ↔
      (['*', '.'].isPrefixOf (lcL (stripWS item.data)) = true
        ∧ (lcL (stripWS item.data)).drop 2 ≠ []
        ∧ (d = (lcL (stripWS item.data)).drop 2
           ∨ ('.' :: (lcL (stripWS item.data)).drop 2).isSuffixOf d = true)) := by
  unfold wildcardHit
  by_cases hv : (lcL (stripWS item.data)).isEmpty = true
  · rw [if_pos hv]
    have hnil : lcL (stripWS item.data) = [] := by
      cases h : lcL (stripWS item.data) with
      | nil => rfl
      | cons c cs => rw [h] at hv; cases hv
    rw [hnil]
    simp
  · rw [if_neg hv]
    by_cases hp : ['*', '.'].isPrefixOf (lcL (stripWS item.data)) = true
    · rw [if_pos hp]
      by_cases hs : ((lcL (stripWS item.data)).drop 2).isEmpty = true
      · rw [if_pos hs]
        have hnil : (lcL (stripWS item.data)).drop 2 = [] := by
          cases h : (lcL (stripWS item.data)).drop 2 with
          | nil => rfl
          | cons c cs => rw [h] at hs; cases hs
        simp [hp, hnil]
      · rw [if_neg hs]
        have hne : (lcL (stripWS item.data)).drop 2 ≠ [] := by
          intro h
          rw [h] at hs
          exact hs rfl
        simp [hp, hne, beq_iff_eq]
    · rw [if_neg hp]
      simp [hp]

/-- Claim C9 (corrected): `is_allowlisted` returns true iff the stripped,
lower-cased domain is nonempty and either equals some allowlist entry
verbatim (the entries are not lower-cased for the exact-membership test), or
some entry, after stripping and lower-casing, has the form `*.suffix` with a
nonempty suffix equal to the domain or a dot-suffix of it.  The three
examples of the original claim hold. -/
theorem c9_is_allowlisted_characterization :
    (∀ (domain : String) (allowlist : List String),
       is_allowlisted domain allowlist = true ↔
         (lcL (stripWS domain.data) ≠ []
           ∧ ((∃ a ∈ allowlist, a.data = lcL (stripWS domain.data))
              ∨ ∃ item ∈ allowlist,
                  ['*', '.'].isPrefixOf (lcL (stripWS item.data)) = true
                    ∧ (lcL (stripWS item.data)).drop 2 ≠ []
                    ∧ (lcL (stripWS domain.data) = (lcL (stripWS item.data)).drop 2
                       ∨ ('.' :: (lcL (stripWS item.data)).drop 2).isSuffixOf
                           (lcL (stripWS domain.data)) = true))))
    ∧ is_allowlisted "sub.example.com" ["*.example.com"] = true
    ∧ is_allowlisted "example.com" ["*.example.com"] = true
    ∧ is_allowlisted "evil.com" ["*.example.com"] = false := by
  refine ⟨?_, by decide, by decide, by decide⟩
  intro domain allowlist
  unfold is_allowlisted
  by_cases hde : (lcL (stripWS domain.data)).isEmpty = true
  · rw [if_pos hde]
    have hnil : lcL (stripWS domain.data) = [] := by
      cases h : lcL (stripWS domain.data) with
      | nil => rfl
      | cons c cs => rw [h] at hde; cases hde
    simp [hnil]
  · rw [if_neg hde]
    have hdne : lcL (stripWS domain.data) ≠ [] := by
      intro h
      rw [h] at hde
      exact hde rfl
    by_cases ha1 : allowlist.any (fun a => a.data == lcL (stripWS domain.data)) = true
    · rw [if_pos ha1]
      constructor
      · intro _
        refine ⟨hdne, Or.inl ?_⟩
        rcases List.any_eq_true.1 ha1 with ⟨a, haa, hab⟩
        exact ⟨a, haa, beq_iff_eq.1 hab⟩
      · intro _
        rfl
    · rw [if_neg ha1]
      rw [List.any_eq_true]
      constructor
      · rintro ⟨item, hitem, hbody⟩
        exact ⟨hdne, Or.inr ⟨item, hitem, (wildcardHit_iff _ item).1 hbody⟩⟩
      · rintro ⟨_, hex | ⟨item, hitem, hprops⟩⟩
        · exfalso
          rcases hex with ⟨a, haa, hab⟩
          exact ha1 (List.any_eq_true.2 ⟨a, haa, beq_iff_eq.2 hab⟩)
        · exact ⟨item, hitem, (wildcardHit_iff _ item).2 hprops⟩

/-- Counterexample to claim C9 as stated: the exact-membership test is not
case-insensitive in the allowlist entries - an upper-case exact entry never
matches, while the claim's fully case-insensitive reading matches. -/
theorem c9_counterexample :
    is_allowlisted "example.com" ["EXAMPLE.COM"] = false
      ∧ is_allowlisted_claim "example.com" ["EXAMPLE.COM"] = true := by
  constructor <;> decide

/-- A maximal digit group of the IPv4 regex: a nonempty run of at most three
ASCII digits. -/
def digitRun (g : List Char) : Prop :=
  g ≠ [] ∧ g.length ≤ 3 ∧ ∀ c ∈ g, c.isDigit = true

theorem dig1to3_some (l r : List Char) :
    dig1to3 l = some r ↔
      ∃ g, l = g ++ r ∧ digitRun g ∧ (g.length = 3 ∨ headDigit r = false) := by
  constructor
  · intro h
    cases l with
    | nil => exact absurd h (by simp [dig1to3])
    | cons c1 r1 =>
      by_cases h1 : c1.isDigit = true
      · cases r1 with
        | nil =>
          have hr : r = [] := by
            simp [dig1to3, h1] at h
            exact h
          subst hr
          exact ⟨[c1], by simp, ⟨by simp, by simp, by simpa⟩, Or.inr rfl⟩
        | cons c2 r2 =>
          by_cases h2 : c2.isDigit = true
          · cases r2 with
            | nil =>
              have hr : r = [] := by
                simp [dig1to3, h1, h2] at h
                exact h
              subst hr
              exact ⟨[c1, c2], by simp, ⟨by simp, by simp, by
                intro c hc
                rcases List.mem_cons.1 hc with rfl | hc
                · exact h1
                · rw [List.mem_singleton.1 hc]; exact h2⟩, Or.inr rfl⟩
            | cons c3 r3 =>
              by_cases h3 : c3.isDigit = true
              · have hr : r3 = r := by simpa [dig1to3, h1, h2, h3] using h
                subst hr
                refine ⟨[c1, c2, c3], by simp, ⟨by simp, by simp, ?_⟩, Or.inl rfl⟩
                intro c hc
                rcases List.mem_cons.1 hc with rfl | hc
                · exact h1
                rcases List.mem_cons.1 hc with rfl | hc
                · exact h2
                · rw [List.mem_singleton.1 hc]; exact h3
              · have hr : c3 :: r3 = r := by simpa [dig1to3, h1, h2, h3] using h
                subst hr
                refine ⟨[c1, c2], by simp, ⟨by simp, by simp, ?_⟩, Or.inr ?_⟩
                · intro c hc
                  rcases List.mem_cons.1 hc with rfl | hc
                  · exact h1
                  · rw [List.mem_singleton.1 hc]; exact h2
                · show c3.isDigit = false
                  simpa using h3
          · have hr : c2 :: r2 = r := by simpa [dig1to3, h1, h2] using h
            subst hr
            refine ⟨[c1], by simp, ⟨by simp, by simp, by simpa⟩, Or.inr ?_⟩
            show c2.isDigit = false
            simpa using h2
      · exact absurd h (by simp [dig1to3, h1])
  · rintro ⟨g, rfl, ⟨hne, hlen, hdig⟩, hcond⟩
    rcases g with _ | ⟨a, _ | ⟨b, _ | ⟨c, _ | ⟨e, t⟩⟩⟩⟩
    · exact absurd rfl hne
    · have ha : a.isDigit = true := hdig a (by simp)
      rcases hcond with hc3 | hhd
      · simp at hc3
      · cases r with
        | nil => simp [dig1to3, ha]
        | cons c0 rest =>
          have hc0 : c0.isDigit = false := hhd
          simp [dig1to3, ha, hc0]
    · have ha : a.isDigit = true := hdig a (by simp)
      have hb : b.isDigit = true := hdig b (by simp)
      rcases hcond with hc3 | hhd
      · simp at hc3
      · cases r with
        | nil => simp [dig1to3, ha, hb]
        | cons c0 rest =>
          have hc0 : c0.isDigit = false := hhd
          simp [dig1to3, ha, hb, hc0]
    · have ha : a.isDigit = true := hdig a (by simp)
      have hb : b.isDigit = true := hdig b (by simp)
      have hc : c.isDigit = true := hdig c (by simp)
      simp [dig1to3, ha, hb, hc]
    · simp at hlen

theorem headDigit_dot (rest : List Char) : headDigit ('.' :: rest) = false := by
  show ('.' : Char).isDigit = false
  decide

theorem expectDot_some (r r' : List Char) :
    expectDot r = some r' ↔ r = '.' :: r' := by
  unfold expectDot
  cases r with
  | nil => simp
  | cons c rest =>
    by_cases hc : (c == '.') = true
    · have : c = '.' := beq_iff_eq.1 hc
      subst this
      simp
    · have hcne : c ≠ '.' := by simpa using hc
      simp [hc, hcne]

theorem expectEnd_some (r x : List Char) :
    expectEnd r = some x ↔ r = [] ∧ x = [] := by
  unfold expectEnd
  cases r with
  | nil => simp [List.isEmpty, eq_comm]
  | cons c rest => simp [List.isEmpty]

theorem ipQuad_iff (l : List Char) :
    ipQuad l = true ↔
      ∃ g1 g2 g3 g4, l = g1 ++ '.' :: (g2 ++ '.' :: (g3 ++ '.' :: g4))
        ∧ digitRun g1 ∧ digitRun g2 ∧ digitRun g3 ∧ digitRun g4 := by
  unfold ipQuad
  rw [Option.isSome_iff_exists]
  constructor
  · rintro ⟨x, hx⟩
    rcases Option.bind_eq_some.1 hx with ⟨a7, h7, hend⟩
    rcases Option.bind_eq_some.1 h7 with ⟨a6, h6, hd4⟩
    rcases Option.bind_eq_some.1 h6 with ⟨a5, h5, hdot3⟩
    rcases Option.bind_eq_some.1 h5 with ⟨a4, h4, hd3⟩
    rcases Option.bind_eq_some.1 h4 with ⟨a3, h3, hdot2⟩
    rcases Option.bind_eq_some.1 h3 with ⟨a2, h2, hd2⟩
    rcases Option.bind_eq_some.1 h2 with ⟨a1, hd1, hdot1⟩
    rcases (dig1to3_some l a1).1 hd1 with ⟨g1, hl1, hg1, _⟩
    rcases (expectDot_some a1 a2).1 hdot1 with rfl
    rcases (dig1to3_some a2 a3).1 hd2 with ⟨g2, hl2, hg2, _⟩
    rcases (expectDot_some a3 a4).1 hdot2 with rfl
    rcases (dig1to3_some a4 a5).1 hd3 with ⟨g3, hl3, hg3, _⟩
    rcases (expectDot_some a5 a6).1 hdot3 with rfl
    rcases (dig1to3_some a6 a7).1 hd4 with ⟨g4, hl4, hg4, _⟩
    rcases (expectEnd_some a7 x).1 hend with ⟨rfl, _⟩
    refine ⟨g1, g2, g3, g4, ?_, hg1, hg2, hg3, hg4⟩
    rw [hl1, hl2, hl3]
    rw [List.append_nil] at hl4
    rw [hl4]
  · rintro ⟨g1, g2, g3, g4, rfl, h1, h2, h3, h4⟩
    have hd1 : dig1to3 (g1 ++ '.' :: (g2 ++ '.' :: (g3 ++ '.' :: g4)))
        = some ('.' :: (g2 ++ '.' :: (g3 ++ '.' :: g4))) :=
      (dig1to3_some _ _).2 ⟨g1, rfl, h1, Or.inr (headDigit_dot _)⟩
    have hd2 : dig1to3 (g2 ++ '.' :: (g3 ++ '.' :: g4))
        = some ('.' :: (g3 ++ '.' :: g4)) :=
      (dig1to3_some _ _).2 ⟨g2, rfl, h2, Or.inr (headDigit_dot _)⟩
    have hd3 : dig1to3 (g3 ++ '.' :: g4) = some ('.' :: g4) :=
      (dig1to3_some _ _).2 ⟨g3, rfl, h3, Or.inr (headDigit_dot _)⟩
    have hd4 : dig1to3 g4 = some [] :=
      (dig1to3_some _ _).2 ⟨g4, (List.append_nil g4).symm, h4, Or.inr rfl⟩
    refine ⟨[], ?_⟩
    rw [hd1, Option.some_bind]
    rw [(expectDot_some _ _).2 rfl, Option.some_bind, hd2, Option.some_bind]
    rw [(expectDot_some _ _).2 rfl, Option.some_bind, hd3, Option.some_bind]
    rw [(expectDot_some _ _).2 rfl, Option.some_bind, hd4, Option.some_bind]
    rw [(expectEnd_some _ _).2 ⟨rfl, rfl⟩]

/-- Claim C10 (corrected): `is_ip_domain` accepts exactly the strings that,
after stripping surrounding whitespace (and lower-casing, which does not
affect digits or dots), consist of four dot-separated runs of one to three
ASCII digits; the numeric values are NOT range-checked against 0-255. -/
theorem c10_is_ip_domain_characterization (domain : String) :
    is_ip_domain domain = true ↔
      ∃ g1 g2 g3 g4,
        lcL (stripWS domain.data) = g1 ++ '.' :: (g2 ++ '.' :: (g3 ++ '.' :: g4))
          ∧ digitRun g1 ∧ digitRun g2 ∧ digitRun g3 ∧ digitRun g4 := by
  unfold is_ip_domain
  exact ipQuad_iff (lcL (stripWS domain.data))

/-- Counterexample to claim C10 as stated: the regex does not range-check the
dotted groups, so 999.0.0.1 is accepted although 999 is not between 0 and
255. -/
theorem c10_counterexample :
    is_ip_domain "999.0.0.1" = true ∧ is_ip_domain_claim "999.0.0.1" = false := by
  constructor <;> decide

/-! ## Claim C6: diversity versus volume -/

/-- A bare finding carrying only the data the scorer reads. -/
def mkFinding (rid : String) (w : Int) : Finding :=
  { rule_id := rid, title := "", severity := "", weight := w,
    description := "", evidence := [] }

theorem wTotal_replicate_le (r : String) (w : Int) (n : Nat) (cap : Int)
    (hcr : RULE_MAX_CONTRIBUTION r = some cap) :
    wTotal (List.replicate n (r, w)) ≤ cap := by
  have hcap0 := (RULE_MAX_bounds r cap hcr).1
  rw [wTotal_eq_keys]
  have hkr : ∀ k ∈ (groupByKey (Prod.fst (α := String) (β := Int))
      (List.replicate n (r, w))).map Prod.fst, k = r := by
    intro k hk
    rw [mem_groupByKey_keys_iff] at hk
    rcases hk with ⟨p, hp, hpe⟩
    rw [← hpe, List.eq_of_mem_replicate hp]
  have hnd := groupByKey_keys_nodup (Prod.fst (α := String) (β := Int))
    (List.replicate n (r, w))
  cases hK : (groupByKey (Prod.fst (α := String) (β := Int))
      (List.replicate n (r, w))).map Prod.fst with
  | nil => simpa using hcap0
  | cons k ks =>
    cases ks with
    | nil =>
      have hkr2 : k = r := hkr k (by rw [hK]; exact List.mem_cons_self k [])
      simp only [List.map_cons, List.map_nil, List.sum_cons, List.sum_nil, add_zero]
      rw [hkr2]
      exact wCappedContribution_le_cap r _ cap hcr
    | cons k2 ks2 =>
      exfalso
      rw [hK] at hnd
      have hk1 : k = r := hkr k (by rw [hK]; exact List.mem_cons_self _ _)
      have hk2 : k2 = r := hkr k2 (by
        rw [hK]
        exact List.mem_cons_of_mem _ (List.mem_cons_self _ _))
      rw [List.nodup_cons] at hnd
      exact hnd.1 (by rw [hk1, hk2]; exact List.mem_cons_self _ _)

/-- Claim C6 (corrected): two findings of distinct uncapped rule ids with
weights summing above a capped rule's cap outscore any number of repeated
findings of that capped rule id; without the cap restriction the original
claim fails (an uncapped low-weight rule can accumulate past any pair). -/
theorem c6_amended (r1 r2 r : String) (w1 w2 w : Int) (n : Nat) (cap : Int)
    (hne : r1 ≠ r2)
    (hc1 : RULE_MAX_CONTRIBUTION r1 = none)
    (hc2 : RULE_MAX_CONTRIBUTION r2 = none)
    (hcr : RULE_MAX_CONTRIBUTION r = some cap)
    (hw1 : 0 ≤ w1) (hw2 : 0 ≤ w2)
    (hgt : cap < w1 + w2) :
    score_from_findings (List.replicate n (mkFinding r w))
      < score_from_findings [mkFinding r1 w1, mkFinding r2 w2] := by
  rw [score_eq_wScore, score_eq_wScore]
  rw [List.map_replicate]
  have hproj : projFW (mkFinding r w) = (r, w) := rfl
  rw [hproj]
  have hbounds := RULE_MAX_bounds r cap hcr
  have hB : wScore (List.replicate n (r, w)) ≤ cap := by
    have ht := wTotal_replicate_le r w n cap hcr
    unfold wScore
    omega
  have hA : cap < wScore ((([mkFinding r1 w1, mkFinding r2 w2]).map projFW)) := by
    have hmap : ([mkFinding r1 w1, mkFinding r2 w2]).map projFW
        = [(r1, w1), (r2, w2)] := rfl
    rw [hmap]
    have hgb : groupByKey (Prod.fst (α := String) (β := Int)) [(r1, w1), (r2, w2)]
        = [(r1, [(r1, w1)]), (r2, [(r2, w2)])] := by
      have hb : ((r1, w1).1 == (r2, w2).1) = false := beq_eq_false_iff_ne.2 hne
      simp [groupByKey, addToGroups, hb]
    have htot : wTotal [(r1, w1), (r2, w2)] = w1 + w2 := by
      unfold wTotal
      rw [hgb]
      simp only [List.map_cons, List.map_nil, List.sum_cons, List.sum_nil, add_zero]
      unfold wCappedContribution
      rw [hc1, hc2, wGroupContribution_singleton, wGroupContribution_singleton]
      show max 0 w1 + max 0 w2 = w1 + w2
      rw [max_eq_right hw1, max_eq_right hw2]
    unfold wScore
    rw [htot]
    omega
  omega

def entHigh0 : String → Bool := fun _ => false

def docC6A : Doc :=
  { forms := [{ action := some "https://evil.example/collect", method := none }],
    scripts := [], iframes := [], metas := [], inputs := [],
    links := [], imgs := [], anchors := [{ href := some "http://phish.tk/a" }] }

def hiddenInputC6 : InputTag :=
  { type := some "hidden", name := some "session_token", id := none,
    value := some (String.mk (List.replicate 121 'x')) }

def docC6B : Doc :=
  { forms := [], scripts := [], iframes := [], metas := [],
    inputs := List.replicate 15 hiddenInputC6, links := [], imgs := [],
    anchors := [] }

set_option maxRecDepth 100000 in
/-- Counterexample to claim C6 as stated: a document with two independent
high-weight findings of distinct rule ids (weights 25 and 22, score 47) is
outscored by a document with fifteen repeated weight-6 findings of the single
uncapped rule SUSPICIOUS_HIDDEN_INPUTS (score 48). -/
theorem c6_counterexample :
    ((analyze_html entHigh0 docC6A "t" (some "https://login.mysite.com") [] []).findings.map
        projFW = [("FORM_ACTION_EXTERNAL", 25), ("SUSPICIOUS_DOMAIN_PATTERN", 22)])
      ∧ ((analyze_html entHigh0 docC6B "t" (some "https://login.mysite.com") [] []).findings.map
          projFW = List.replicate 15 ("SUSPICIOUS_HIDDEN_INPUTS", 6))
      ∧ (analyze_html entHigh0 docC6A "t" (some "https://login.mysite.com") [] []).score = 47
      ∧ (analyze_html entHigh0 docC6B "t" (some "https://login.mysite.com") [] []).score = 48
      ∧ ¬((analyze_html entHigh0 docC6B "t" (some "https://login.mysite.com") [] []).score
          < (analyze_html entHigh0 docC6A "t" (some "https://login.mysite.com") [] []).score) := by
  refine ⟨by decide, by decide, by decide, by decide, by decide⟩

/-- Witness for the amended C6 at concrete inputs. -/
theorem c6_witness :
    score_from_findings (List.replicate 50 (mkFinding "JS_HIGH_ENTROPY_INLINE" 6))
      < score_from_findings
          [mkFinding "FORM_ACTION_EXTERNAL" 25,
           mkFinding "SUSPICIOUS_DOMAIN_PATTERN" 22] :=
  c6_amended "FORM_ACTION_EXTERNAL" "SUSPICIOUS_DOMAIN_PATTERN"
    "JS_HIGH_ENTROPY_INLINE" 25 22 6 50 12 (by decide) (by decide) (by decide)
    (by decide) (by decide) (by decide) (by decide)

/-! ## Claim C5: the end-to-end document -/

theorem mem_evalRules_of (rules : List Rule) (doc : Doc) (ctx : RuleContext)
    {rule : Rule} {f : Finding} (hr : rule ∈ rules)
    (hf : f ∈ ruleFindings doc ctx rule) : f ∈ evalRules rules doc ctx := by
  rw [evalRules_eq_catMap]
  exact mem_catMap.2 ⟨rule, hr, hf⟩

theorem checkFormExternal_hit (ctx : RuleContext) (form : FormTag)
    (ha : stripS (form.action.getD "") = "http://evil.example/collect")
    (hbd : ctx.base_domain ≠ "") (hbd2 : ctx.base_domain ≠ "evil.example")
    (hal : is_allowlisted "evil.example" ctx.allowlist = false) :
    ∃ f ∈ checkFormExternal ctx form, projFW f = ("FORM_ACTION_EXTERNAL", 25) := by
  unfold checkFormExternal
  rw [ha]
  have hgd : get_domain "http://evil.example/collect" = "evil.example" := by decide
  rw [hgd]
  rw [if_neg (by decide)]
  have hc2 : (ctx.base_domain != "") = true := bne_iff_ne.2 hbd
  have hc3 : (("evil.example" : String) != ctx.base_domain) = true :=
    bne_iff_ne.2 (fun he => hbd2 he.symm)
  rw [if_pos (by rw [hc2, hc3]; rfl)]
  rw [if_neg (by rw [hal]; exact Bool.false_ne_true)]
  exact ⟨_, List.mem_singleton.2 rfl, rfl⟩

theorem checkFormHttp_hit (form : FormTag)
    (ha : stripS (form.action.getD "") = "http://evil.example/collect") :
    ∃ f ∈ checkFormHttp form, projFW f = ("FORM_ACTION_INSECURE_HTTP", 20) := by
  unfold checkFormHttp
  rw [ha]
  rw [if_pos (by decide)]
  exact ⟨_, List.mem_singleton.2 rfl, rfl⟩

theorem checkScriptObfuscation_hit (s : ScriptTag)
    (hsrc : s.src.getD "" = "")
    (hlen : 80 ≤ (stripS s.text).data.length)
    (heval : searchWithPrev patEval none (stripS s.text).data = true) :
    ∃ f ∈ checkScriptObfuscation s, projFW f = ("JS_OBFUSCATION_APIS", 20) := by
  unfold checkScriptObfuscation
  rw [hsrc]
  rw [if_neg (by decide)]
  rw [if_neg (not_lt.2 hlen)]
  have hmem : ("eval", patEval) ∈ obfuscationPatterns.filter
      (fun p => searchWithPrev p.2 none (stripS s.text).data) := by
    refine List.mem_filter.2 ⟨?_, heval⟩
    unfold obfuscationPatterns
    exact List.mem_cons_self _ _
  have hne : (obfuscationPatterns.filter
      (fun p => searchWithPrev p.2 none (stripS s.text).data)).isEmpty = false := by
    cases hh : obfuscationPatterns.filter
        (fun p => searchWithPrev p.2 none (stripS s.text).data) with
    | nil => rw [hh] at hmem; cases hmem
    | cons a t => rfl
  rw [if_neg (by rw [hne]; exact Bool.false_ne_true)]
  exact ⟨_, List.mem_singleton.2 rfl, rfl⟩

theorem checkIframeHidden_hit (fr : IframeTag)
    (hw : stripS (fr.width.getD "") = "0") :
    ∃ f ∈ checkIframeHidden fr, projFW f = ("IFRAME_HIDDEN", 12) := by
  unfold checkIframeHidden
  rw [hw]
  rw [if_pos (by simp)]
  exact ⟨_, List.mem_singleton.2 rfl, rfl⟩

/-- Claim C5 (corrected): a document containing (a) a form whose action is
http://evil.example/collect, external to a nonempty base domain and not
allowlisted, (b) an inline script of at least 80 stripped characters calling
eval(...), and (c) an iframe with width "0", always scores at least 77 and is
therefore rated medium_risk or high_risk - but not necessarily high_risk
(the guaranteed findings sum to 77 < 80). -/
theorem c5_amended (entHigh : String → Bool) (doc : Doc) (target : String)
    (u : String) (allowlist : List String) (extra : List Rule)
    (form : FormTag) (s : ScriptTag) (fr : IframeTag)
    (hform : form ∈ doc.forms)
    (haction : stripS (form.action.getD "") = "http://evil.example/collect")
    (hu : u ≠ "")
    (hbase_ne : get_domain u ≠ "")
    (hbase_ne2 : get_domain u ≠ "evil.example")
    (hallow : is_allowlisted "evil.example" (allowlist.map lowerS) = false)
    (hs : s ∈ doc.scripts)
    (hssrc : s.src.getD "" = "")
    (hslen : 80 ≤ (stripS s.text).data.length)
    (hseval : searchWithPrev patEval none (stripS s.text).data = true)
    (hfr : fr ∈ doc.iframes)
    (hfrw : stripS (fr.width.getD "") = "0") :
    77 ≤ (analyze_html entHigh doc target (some u) allowlist extra).score
      ∧ ((analyze_html entHigh doc target (some u) allowlist extra).rating = "medium_risk"
         ∨ (analyze_html entHigh doc target (some u) allowlist extra).rating = "high_risk") := by
  have hbd0 : ((if u == "" then "" else get_domain u) : String) = get_domain u := by
    rw [if_neg (by simp [hu])]
  set ctx : RuleContext :=
    { target := target, base_url := some u,
      base_domain := if u == "" then "" else get_domain u,
      allowlist := allowlist.map lowerS,
      resource_domains := collect_resource_domains doc } with hctx
  have hscore : (analyze_html entHigh doc target (some u) allowlist extra).score
      = score_from_findings (evalRules (get_builtin_rules entHigh ++ extra) doc ctx) := rfl
  have hrat : (analyze_html entHigh doc target (some u) allowlist extra).rating
      = rating_of (score_from_findings
          (evalRules (get_builtin_rules entHigh ++ extra) doc ctx)) := rfl
  have hcbd : ctx.base_domain = get_domain u := hbd0
  have hcal : ctx.allowlist = allowlist.map lowerS := rfl
  obtain ⟨f1, hf1, hp1⟩ := checkFormExternal_hit ctx form haction
    (by rw [hcbd]; exact hbase_ne) (by rw [hcbd]; exact hbase_ne2)
    (by rw [hcal]; exact hallow)
  obtain ⟨f2, hf2, hp2⟩ := checkFormHttp_hit form haction
  obtain ⟨f3, hf3, hp3⟩ := checkScriptObfuscation_hit s hssrc hslen hseval
  obtain ⟨f4, hf4, hp4⟩ := checkIframeHidden_hit fr hfrw
  have he1 : f1 ∈ evalRules (get_builtin_rules entHigh ++ extra) doc ctx := by
    refine mem_evalRules_of _ doc ctx
      (List.mem_append_left _ (?_ : ruleFormActionExternal ∈ _)) ?_
    · unfold get_builtin_rules
      exact List.mem_cons_self _ _
    · show f1 ∈ form_action_external doc ctx
      exact mem_catMap.2 ⟨form, hform, hf1⟩
  have he2 : f2 ∈ evalRules (get_builtin_rules entHigh ++ extra) doc ctx := by
    refine mem_evalRules_of _ doc ctx
      (List.mem_append_left _ (?_ : ruleFormActionHttp ∈ _)) ?_
    · unfold get_builtin_rules
      exact List.mem_cons_of_mem _ (List.mem_cons_self _ _)
    · show f2 ∈ form_action_http doc ctx
      exact mem_catMap.2 ⟨form, hform, hf2⟩
  have he3 : f3 ∈ evalRules (get_builtin_rules entHigh ++ extra) doc ctx := by
    refine mem_evalRules_of _ doc ctx
      (List.mem_append_left _ (?_ : ruleJsObfuscation ∈ _)) ?_
    · unfold get_builtin_rules
      exact List.mem_cons_of_mem _ (List.mem_cons_of_mem _ (List.mem_cons_of_mem _
        (List.mem_cons_of_mem _ (List.mem_cons_of_mem _ (List.mem_cons_self _ _)))))
    · show f3 ∈ js_obfuscation_apis doc ctx
      exact mem_catMap.2 ⟨s, hs, hf3⟩
  have he4 : f4 ∈ evalRules (get_builtin_rules entHigh ++ extra) doc ctx := by
    refine mem_evalRules_of _ doc ctx
      (List.mem_append_left _ (?_ : ruleIframeHidden ∈ _)) ?_
    · unfold get_builtin_rules
      exact List.mem_cons_of_mem _ (List.mem_cons_of_mem _ (List.mem_cons_of_mem _
        (List.mem_cons_of_mem _ (List.mem_cons_of_mem _ (List.mem_cons_of_mem _
          (List.mem_cons_of_mem _ (List.mem_cons_of_mem _ (List.mem_cons_of_mem _
            (List.mem_cons_self _ _)))))))))
    · show f4 ∈ hidden_iframe doc ctx
      exact mem_catMap.2 ⟨fr, hfr, hf4⟩
  set W := (evalRules (get_builtin_rules entHigh ++ extra) doc ctx).map projFW with hW
  have hw1 : ("FORM_ACTION_EXTERNAL", (25:Int)) ∈ W := List.mem_map.2 ⟨f1, he1, hp1⟩
  have hw2 : ("FORM_ACTION_INSECURE_HTTP", (20:Int)) ∈ W := List.mem_map.2 ⟨f2, he2, hp2⟩
  have hw3 : ("JS_OBFUSCATION_APIS", (20:Int)) ∈ W := List.mem_map.2 ⟨f3, he3, hp3⟩
  have hw4 : ("IFRAME_HIDDEN", (12:Int)) ∈ W := List.mem_map.2 ⟨f4, he4, hp4⟩
  have hsel := wTotal_ge_selected W
    [("FORM_ACTION_EXTERNAL", (25:Int)), ("FORM_ACTION_INSECURE_HTTP", 20),
     ("JS_OBFUSCATION_APIS", 20), ("IFRAME_HIDDEN", 12)]
    (by decide)
    (by
      intro p hp
      rcases List.mem_cons.1 hp with rfl | hp
      · exact hw1
      rcases List.mem_cons.1 hp with rfl | hp
      · exact hw2
      rcases List.mem_cons.1 hp with rfl | hp
      · exact hw3
      rcases List.mem_cons.1 hp with rfl | hp
      · exact hw4
      · cases hp)
  have hsum : (([("FORM_ACTION_EXTERNAL", (25:Int)), ("FORM_ACTION_INSECURE_HTTP", 20),
      ("JS_OBFUSCATION_APIS", 20), ("IFRAME_HIDDEN", 12)]).map
        (fun p => capFloor p.1 p.2)).sum = 77 := by decide
  have htot : 77 ≤ wTotal W := by
    rw [hsum] at hsel
    exact hsel
  have hws : 77 ≤ wScore W := wScore_ge W 77 (by norm_num) htot
  have hsc : 77 ≤ (analyze_html entHigh doc target (some u) allowlist extra).score := by
    rw [hscore, score_eq_wScore]
    exact hws
  refine ⟨hsc, ?_⟩
  rw [hrat]
  set sc := score_from_findings (evalRules (get_builtin_rules entHigh ++ extra) doc ctx)
    with hscdef
  have hsc77 : 77 ≤ sc := by
    rw [hscdef, score_eq_wScore]
    exact hws
  by_cases h80 : 80 ≤ sc
  · right
    unfold rating_of
    rw [if_pos h80]
  · left
    unfold rating_of
    rw [if_neg h80, if_pos (by omega)]

def scriptC5 : ScriptTag :=
  { src := none,
    text := "window.setTimeout(function () \x7b eval(document.getElementById(payloadbox).value); \x7d, 1000);" }

def docC5 : Doc :=
  { forms := [{ action := some "http://evil.example/collect", method := some "post" }],
    scripts := [scriptC5],
    iframes := [{ style := none, width := some "0", height := none, src := none }],
    metas := [], inputs := [], links := [], imgs := [], anchors := [] }

set_option maxRecDepth 100000 in
/-- Counterexample to claim C5 as stated: this document satisfies all three
conditions - external, non-allowlisted, insecure form action; an inline
eval(...) script longer than 80 characters; a width-0 iframe - yet its
score is 77 and its rating is medium_risk, not high_risk. -/
theorem c5_counterexample :
    (∃ form ∈ docC5.forms,
        stripS (form.action.getD "") = "http://evil.example/collect")
      ∧ get_domain "https://login.mysite.com" ≠ ""
      ∧ get_domain "https://login.mysite.com" ≠ "evil.example"
      ∧ is_allowlisted "evil.example" (([] : List String).map lowerS) = false
      ∧ (∃ s ∈ docC5.scripts, s.src.getD "" = ""
          ∧ 80 < (stripS s.text).data.length
          ∧ searchWithPrev patEval none (stripS s.text).data = true)
      ∧ (∃ fr ∈ docC5.iframes, stripS (fr.width.getD "") = "0")
      ∧ (analyze_html entHigh0 docC5 "t" (some "https://login.mysite.com") [] []).score = 77
      ∧ (analyze_html entHigh0 docC5 "t" (some "https://login.mysite.com") [] []).rating
          ≠ "high_risk" := by
  refine ⟨by decide, by decide, by decide, by decide, by decide, by decide,
    by decide, by decide⟩

set_option maxRecDepth 100000 in
/-- Witness for the amended C5 at the concrete document. -/
theorem c5_witness :
    77 ≤ (analyze_html entHigh0 docC5 "t" (some "https://login.mysite.com") [] []).score
      ∧ ((analyze_html entHigh0 docC5 "t" (some "https://login.mysite.com") [] []).rating
            = "medium_risk"
         ∨ (analyze_html entHigh0 docC5 "t" (some "https://login.mysite.com") [] []).rating
            = "high_risk") :=
  c5_amended entHigh0 docC5 "t" "https://login.mysite.com" [] []
    { action := some "http://evil.example/collect", method := some "post" }
    scriptC5
    { style := none, width := some "0", height := none, src := none }
    (by decide) (by decide) (by decide) (by decide) (by decide) (by decide)
    (by decide) (by decide) (by decide) (by decide) (by decide) (by decide)

/-! ## Claim C7: removing an external form action -/

theorem subperm_append {α : Type} {l1 l2 r1 r2 : List α}
    (h1 : l1.Subperm l2) (h2 : r1.Subperm r2) : (l1 ++ r1).Subperm (l2 ++ r2) := by
  obtain ⟨w1, hw1, hs1⟩ := h1
  obtain ⟨w2, hw2, hs2⟩ := h2
  exact ⟨w1 ++ w2, hw1.append hw2, hs1.append hs2⟩

theorem subperm_cons_both {α : Type} (a : α) {l1 l2 : List α}
    (h : l1.Subperm l2) : (a :: l1).Subperm (a :: l2) :=
  (List.subperm_cons a).2 h

theorem mem_dedupStr {x : String} {l : List String} : x ∈ dedupStr l ↔ x ∈ l := by
  suffices h : ∀ (l : List String) (acc : List String),
      x ∈ l.foldl (fun acc y => if acc.contains y then acc else acc ++ [y]) acc
        ↔ x ∈ acc ∨ x ∈ l by
    have := h l []
    simpa [dedupStr] using this
  intro l
  induction l with
  | nil => intro acc; simp
  | cons y ys ih =>
    intro acc
    simp only [List.foldl_cons]
    by_cases hc : acc.contains y = true
    · rw [if_pos hc, ih]
      constructor
      · rintro (hx | hx)
        · exact Or.inl hx
        · exact Or.inr (List.mem_cons_of_mem y hx)
      · rintro (hx | hx)
        · exact Or.inl hx
        · rcases List.mem_cons.1 hx with rfl | hx
          · exact Or.inl (List.mem_of_elem_eq_true hc)
          · exact Or.inr hx
    · rw [if_neg hc, ih]
      constructor
      · rintro (hx | hx)
        · rcases List.mem_append.1 hx with hx | hx
          · exact Or.inl hx
          · exact Or.inr (by
              rw [List.mem_singleton.1 hx]
              exact List.mem_cons_self y ys)
        · exact Or.inr (List.mem_cons_of_mem y hx)
      · rintro (hx | hx)
        · exact Or.inl (List.mem_append.2 (Or.inl hx))
        · rcases List.mem_cons.1 hx with rfl | hx
          · exact Or.inl (List.mem_append.2 (Or.inr (by simp)))
          · exact Or.inr hx

theorem mem_bumpCount_keys {k d : String} {acc : List (String × Nat)} :
    k ∈ (bumpCount acc d).map Prod.fst ↔ k ∈ acc.map Prod.fst ∨ k = d := by
  unfold bumpCount
  by_cases hc : acc.any (fun p => p.1 == d) = true
  · rw [if_pos hc]
    have hkeys : (acc.map (fun p => if p.1 == d then (p.1, p.2 + 1) else p)).map Prod.fst
        = acc.map Prod.fst := by
      rw [List.map_map]
      refine List.map_congr_left ?_
      intro p _
      by_cases hp : (p.1 == d) = true
      · simp [Function.comp, hp]
      · simp [Function.comp, hp]
    rw [hkeys]
    constructor
    · exact Or.inl
    · rintro (hk | rfl)
      · exact hk
      · rcases List.any_eq_true.1 hc with ⟨p, hp, hpe⟩
        exact List.mem_map.2 ⟨p, hp, beq_iff_eq.1 hpe⟩
  · rw [if_neg hc]
    rw [List.map_append]
    simp only [List.map_cons, List.map_nil, List.mem_append, List.mem_singleton]

theorem mem_countFold_keys (urls : List String) (k : String) :
    (k ∈ (urls.foldl (fun acc u =>
        if get_domain u == "" then acc else bumpCount acc (get_domain u)) []).map
          Prod.fst)
      ↔ ∃ u ∈ urls, get_domain u = k ∧ k ≠ "" := by
  suffices h : ∀ (urls : List String) (acc : List (String × Nat)),
      (∀ k2 ∈ acc.map Prod.fst, k2 ≠ "") →
      ((k ∈ (urls.foldl (fun acc u =>
          if get_domain u == "" then acc else bumpCount acc (get_domain u)) acc).map
            Prod.fst)
        ↔ k ∈ acc.map Prod.fst ∨ ∃ u ∈ urls, get_domain u = k ∧ k ≠ "") by
    have := h urls [] (by simp)
    simpa using this
  intro urls
  induction urls with
  | nil => intro acc _; simp
  | cons u us ih =>
    intro acc hacc
    simp only [List.foldl_cons]
    by_cases hd : (get_domain u == "") = true
    · rw [if_pos hd, ih acc hacc]
      have hde : get_domain u = "" := beq_iff_eq.1 hd
      constructor
      · rintro (hk | hk)
        · exact Or.inl hk
        · exact Or.inr (by
            rcases hk with ⟨v, hv, he, hne⟩
            exact ⟨v, List.mem_cons_of_mem u hv, he, hne⟩)
      · rintro (hk | ⟨v, hv, he, hne⟩)
        · exact Or.inl hk
        · rcases List.mem_cons.1 hv with rfl | hv
          · exact absurd (hde ▸ he) (Ne.symm hne)
          · exact Or.inr ⟨v, hv, he, hne⟩
    · have hde : get_domain u ≠ "" := by simpa using hd
      rw [if_neg hd]
      rw [ih (bumpCount acc (get_domain u)) (by
        intro k2 hk2
        rcases mem_bumpCount_keys.1 hk2 with hk2 | rfl
        · exact hacc k2 hk2
        · exact hde)]
      rw [mem_bumpCount_keys]
      constructor
      · rintro ((hk | rfl) | hk)
        · exact Or.inl hk
        · exact Or.inr ⟨u, List.mem_cons_self u us, rfl, hde⟩
        · rcases hk with ⟨v, hv, he, hne⟩
          exact Or.inr ⟨v, List.mem_cons_of_mem u hv, he, hne⟩
      · rintro (hk | ⟨v, hv, he, hne⟩)
        · exact Or.inl (Or.inl hk)
        · rcases List.mem_cons.1 hv with rfl | hv
          · exact Or.inl (Or.inr he.symm)
          · exact Or.inr ⟨v, hv, he, hne⟩

theorem mem_collect_keys (doc : Doc) (k : String) :
    (k ∈ (collect_resource_domains doc).map Prod.fst)
      ↔ ∃ u ∈ collectUrls doc, get_domain u = k ∧ k ≠ "" := by
  unfold collect_resource_domains
  rw [← mem_countFold_keys (collectUrls doc) k]
  constructor
  · intro hk
    rcases List.mem_map.1 hk with ⟨p, hp, rfl⟩
    exact List.mem_map.2
      ⟨p, ((sortDescBy_perm (fun p : String × Nat => (p.2 : Int)) _).mem_iff).1 hp, rfl⟩
  · intro hk
    rcases List.mem_map.1 hk with ⟨p, hp, rfl⟩
    exact List.mem_map.2
      ⟨p, ((sortDescBy_perm (fun p : String × Nat => (p.2 : Int)) _).mem_iff).2 hp, rfl⟩

theorem grabUrl_none : grabUrl none = [] := by decide

theorem checkFormExternal_none (ctx : RuleContext) (m : Option String) :
    checkFormExternal ctx { action := none, method := m } = [] := rfl

theorem checkFormHttp_none (m : Option String) :
    checkFormHttp { action := none, method := m } = [] := rfl

theorem checkFormExternal_fires (ctx : RuleContext) (form : FormTag)
    (hd : get_domain (stripS (form.action.getD "")) ≠ "")
    (hbd : ctx.base_domain ≠ "")
    (hdb : get_domain (stripS (form.action.getD "")) ≠ ctx.base_domain)
    (hal : is_allowlisted (get_domain (stripS (form.action.getD "")))
        ctx.allowlist = false) :
    ∃ f, checkFormExternal ctx form = [f]
      ∧ projFW f = ("FORM_ACTION_EXTERNAL", 25) := by
  unfold checkFormExternal
  have hane : ¬(stripS (form.action.getD "") == "") = true := by
    simp only [beq_iff_eq]
    intro he
    apply hd
    rw [he]
    decide
  rw [if_neg hane]
  rw [if_pos (by rw [bne_iff_ne.2 hd, bne_iff_ne.2 hbd, bne_iff_ne.2 hdb]; rfl)]
  rw [if_neg (by rw [hal]; exact Bool.false_ne_true)]
  exact ⟨_, rfl, rfl⟩

theorem suspicious_proj_subperm (doc1 doc2 : Doc) (c1 c2 : RuleContext)
    (hal : c2.allowlist = c1.allowlist) (hbd : c2.base_domain = c1.base_domain)
    (hdom : ∀ k, k ∈ c2.resource_domains.map Prod.fst
        → k ∈ c1.resource_domains.map Prod.fst) :
    ((suspicious_domain_patterns doc2 c2).map projFW).Subperm
      ((suspicious_domain_patterns doc1 c1).map projFW) := by
  unfold suspicious_domain_patterns
  by_cases h2 : ((dedupStr (c2.resource_domains.map Prod.fst ++
      (if c2.base_domain != "" then [c2.base_domain] else []))).filter (fun d =>
        d != "" && !is_allowlisted d c2.allowlist
          && !(domainReasons d).isEmpty)).isEmpty = true
  · rw [if_pos h2]
    simp only [List.map_nil]
    exact List.nil_subperm
  · have hne : (dedupStr (c2.resource_domains.map Prod.fst ++
        (if c2.base_domain != "" then [c2.base_domain] else []))).filter (fun d =>
          d != "" && !is_allowlisted d c2.allowlist
            && !(domainReasons d).isEmpty) ≠ [] := by
      intro he
      rw [he] at h2
      exact h2 rfl
    rcases List.exists_mem_of_ne_nil _ hne with ⟨d, hdm⟩
    rcases List.mem_filter.1 hdm with ⟨hdmem, hdp⟩
    have hd1 : d ∈ dedupStr (c1.resource_domains.map Prod.fst ++
        (if c1.base_domain != "" then [c1.base_domain] else [])) := by
      rw [mem_dedupStr]
      rcases List.mem_append.1 (mem_dedupStr.1 hdmem) with hk | hk
      · exact List.mem_append.2 (Or.inl (hdom d hk))
      · rw [hbd] at hk
        exact List.mem_append.2 (Or.inr hk)
    have hdp1 : (d != "" && !is_allowlisted d c1.allowlist
        && !(domainReasons d).isEmpty) = true := by
      rw [← hal]
      exact hdp
    by_cases h1 : ((dedupStr (c1.resource_domains.map Prod.fst ++
        (if c1.base_domain != "" then [c1.base_domain] else []))).filter (fun d =>
          d != "" && !is_allowlisted d c1.allowlist
            && !(domainReasons d).isEmpty)).isEmpty = true
    · exfalso
      have hmem1 : d ∈ (dedupStr (c1.resource_domains.map Prod.fst ++
          (if c1.base_domain != "" then [c1.base_domain] else []))).filter (fun d =>
            d != "" && !is_allowlisted d c1.allowlist
              && !(domainReasons d).isEmpty) :=
        List.mem_filter.2 ⟨hd1, hdp1⟩
      rw [List.isEmpty_iff] at h1
      rw [h1] at hmem1
      cases hmem1
    · rw [if_neg h2, if_neg h1]
      exact List.Subperm.refl _

theorem collectUrls_action_erased (pre post : List FormTag) (form : FormTag)
    (m : Option String) (scripts : List ScriptTag) (iframes : List IframeTag)
    (metas : List MetaTag) (inputs : List InputTag) (links : List LinkTag)
    (imgs : List ImgTag) (anchors : List AnchorTag) :
    ∀ u, u ∈ collectUrls ⟨pre ++ { action := none, method := m } :: post,
          scripts, iframes, metas, inputs, links, imgs, anchors⟩
      → u ∈ collectUrls ⟨pre ++ form :: post,
          scripts, iframes, metas, inputs, links, imgs, anchors⟩ := by
  intro u hu
  rcases mem_catMap.1 hu with ⟨v, hv, hg⟩
  refine mem_catMap.2 ⟨v, ?_, hg⟩
  simp only [List.map_append, List.map_cons, List.mem_append, List.mem_cons] at hv ⊢
  rcases eq_or_ne v none with rfl | hvn
  · rw [grabUrl_none] at hg
    cases hg
  · tauto

theorem checkFormExternal_congr (c1 c2 : RuleContext) (form : FormTag)
    (ha : c2.allowlist = c1.allowlist) (hb : c2.base_domain = c1.base_domain) :
    checkFormExternal c2 form = checkFormExternal c1 form := by
  unfold checkFormExternal
  rw [ha, hb]

theorem external_js_domains_congr (d1 d2 : Doc) (c1 c2 : RuleContext)
    (hs : d2.scripts = d1.scripts) (ha : c2.allowlist = c1.allowlist)
    (hb : c2.base_domain = c1.base_domain) :
    external_js_domains d2 c2 = external_js_domains d1 c1 := by
  unfold external_js_domains
  rw [hs, ha, hb]

theorem meta_refresh_congr (d1 d2 : Doc) (c1 c2 : RuleContext)
    (hm : d2.metas = d1.metas) (ha : c2.allowlist = c1.allowlist)
    (hb : c2.base_domain = c1.base_domain) :
    meta_refresh d2 c2 = meta_refresh d1 c1 := by
  unfold meta_refresh
  rw [hm, ha, hb]

theorem hidden_inputs_congr (d1 d2 : Doc) (c1 c2 : RuleContext)
    (hi : d2.inputs = d1.inputs) :
    hidden_inputs d2 c2 = hidden_inputs d1 c1 := by
  unfold hidden_inputs
  rw [hi]

theorem js_obfuscation_congr (d1 d2 : Doc) (c1 c2 : RuleContext)
    (hs : d2.scripts = d1.scripts) :
    js_obfuscation_apis d2 c2 = js_obfuscation_apis d1 c1 := by
  unfold js_obfuscation_apis
  rw [hs]

theorem js_high_entropy_congr (entHigh : String → Bool) (d1 d2 : Doc)
    (c1 c2 : RuleContext) (hs : d2.scripts = d1.scripts) :
    js_high_entropy_inline entHigh d2 c2 = js_high_entropy_inline entHigh d1 c1 := by
  unfold js_high_entropy_inline
  rw [hs]

theorem js_localhost_congr (d1 d2 : Doc) (c1 c2 : RuleContext)
    (hs : d2.scripts = d1.scripts) :
    js_localhost_calls d2 c2 = js_localhost_calls d1 c1 := by
  unfold js_localhost_calls
  rw [hs]

theorem hidden_iframe_congr (d1 d2 : Doc) (c1 c2 : RuleContext)
    (hi : d2.iframes = d1.iframes) :
    hidden_iframe d2 c2 = hidden_iframe d1 c1 := by
  unfold hidden_iframe
  rw [hi]

theorem wScore_pair_bounds (x : String × Int) {W1 W2 : List (String × Int)}
    (h : (x :: W2).Subperm W1) (hcap : RULE_MAX_CONTRIBUTION x.1 = none)
    (hw : 1 ≤ x.2) :
    wScore W2 ≤ wScore W1 ∧ (wScore W2 < 100 → wScore W2 < wScore W1) :=
  ⟨wScore_subperm ((List.sublist_cons_self x W2).subperm.trans h),
   fun hlt => wScore_strict h hcap hw hlt⟩

/-- C7 (amended): removing the action of a form whose action domain is
non-empty, differs from the base domain and is not allowlisted never
increases the analyzed score, and strictly decreases it whenever the reduced
score is below the 100-point clamp. -/
theorem c7_amended (entHigh : String → Bool) (pre post : List FormTag)
    (form : FormTag) (m : Option String) (scripts : List ScriptTag)
    (iframes : List IframeTag) (metas : List MetaTag) (inputs : List InputTag)
    (links : List LinkTag) (imgs : List ImgTag) (anchors : List AnchorTag)
    (doc doc2 : Doc) (target u : String) (allowlist : List String)
    (hdoc : doc = ⟨pre ++ form :: post, scripts, iframes, metas, inputs,
        links, imgs, anchors⟩)
    (hdoc2 : doc2 = ⟨pre ++ { action := none, method := m } :: post, scripts,
        iframes, metas, inputs, links, imgs, anchors⟩)
    (hu : u ≠ "")
    (hd : get_domain (stripS (form.action.getD "")) ≠ "")
    (hbner : get_domain u ≠ "")
    (hdb : get_domain (stripS (form.action.getD "")) ≠ get_domain u)
    (hallow : is_allowlisted (get_domain (stripS (form.action.getD "")))
        (allowlist.map lowerS) = false) :
    (analyze_html entHigh doc2 target (some u) allowlist []).score
        ≤ (analyze_html entHigh doc target (some u) allowlist []).score
      ∧ ((analyze_html entHigh doc2 target (some u) allowlist []).score < 100
        → (analyze_html entHigh doc2 target (some u) allowlist []).score
            < (analyze_html entHigh doc target (some u) allowlist []).score) := by
  have hsc1 : (analyze_html entHigh doc target (some u) allowlist []).score
      = score_from_findings (evalRules (get_builtin_rules entHigh ++ []) doc
          { target := target, base_url := some u,
            base_domain := if u == "" then "" else get_domain u,
            allowlist := allowlist.map lowerS,
            resource_domains := collect_resource_domains doc }) := rfl
  have hsc2 : (analyze_html entHigh doc2 target (some u) allowlist []).score
      = score_from_findings (evalRules (get_builtin_rules entHigh ++ []) doc2
          { target := target, base_url := some u,
            base_domain := if u == "" then "" else get_domain u,
            allowlist := allowlist.map lowerS,
            resource_domains := collect_resource_domains doc2 }) := rfl
  rw [hsc1, hsc2]
  have hune : ¬((u == "") = true) := by simpa using hu
  rw [if_neg hune]
  rw [score_eq_wScore, score_eq_wScore]
  set c1 : RuleContext :=
    { target := target, base_url := some u,
      base_domain := get_domain u, allowlist := allowlist.map lowerS,
      resource_domains := collect_resource_domains doc } with hc1
  set c2 : RuleContext :=
    { target := target, base_url := some u,
      base_domain := get_domain u, allowlist := allowlist.map lowerS,
      resource_domains := collect_resource_domains doc2 } with hc2
  have hal12 : c2.allowlist = c1.allowlist := by rw [hc1, hc2]
  have hbd12 : c2.base_domain = c1.base_domain := by rw [hc1, hc2]
  have hbd1 : c1.base_domain ≠ "" := by rw [hc1]; exact hbner
  have hdb1 : get_domain (stripS (form.action.getD "")) ≠ c1.base_domain := by
    rw [hc1]; exact hdb
  have hal1 : is_allowlisted (get_domain (stripS (form.action.getD "")))
      c1.allowlist = false := by rw [hc1]; exact hallow
  have hscr : doc2.scripts = doc.scripts := by rw [hdoc, hdoc2]
  have hifr : doc2.iframes = doc.iframes := by rw [hdoc, hdoc2]
  have hmet : doc2.metas = doc.metas := by rw [hdoc, hdoc2]
  have hinp : doc2.inputs = doc.inputs := by rw [hdoc, hdoc2]
  have hforms1 : doc.forms = pre ++ form :: post := by rw [hdoc]
  have hforms2 : doc2.forms = pre ++ { action := none, method := m } :: post := by
    rw [hdoc2]
  have hdom12 : ∀ k, k ∈ c2.resource_domains.map Prod.fst
      → k ∈ c1.resource_domains.map Prod.fst := by
    intro k hk
    have hk2 : k ∈ (collect_resource_domains doc2).map Prod.fst := by
      rw [hc2] at hk; exact hk
    rcases (mem_collect_keys doc2 k).1 hk2 with ⟨v, hv, hgd, hk0⟩
    have hv2 : v ∈ collectUrls ⟨pre ++ { action := none, method := m } :: post,
        scripts, iframes, metas, inputs, links, imgs, anchors⟩ := by
      rw [← hdoc2]; exact hv
    have hv1 := collectUrls_action_erased pre post form m scripts iframes metas
      inputs links imgs anchors v hv2
    have hv1d : v ∈ collectUrls doc := by rw [hdoc]; exact hv1
    have hk1 : k ∈ (collect_resource_domains doc).map Prod.fst :=
      (mem_collect_keys doc k).2 ⟨v, hv1d, hgd, hk0⟩
    rw [hc1]; exact hk1
  have hexp : ∀ (d : Doc) (c : RuleContext),
      evalRules (get_builtin_rules entHigh ++ []) d c
        = form_action_external d c ++ form_action_http d c
          ++ external_js_domains d c ++ meta_refresh d c ++ hidden_inputs d c
          ++ js_obfuscation_apis d c ++ js_high_entropy_inline entHigh d c
          ++ js_localhost_calls d c ++ suspicious_domain_patterns d c
          ++ hidden_iframe d c := by
    intro d c
    rfl
  rw [hexp doc2 c2, hexp doc c1]
  have e3 : external_js_domains doc2 c2 = external_js_domains doc c1 :=
    external_js_domains_congr doc doc2 c1 c2 hscr hal12 hbd12
  have e4 : meta_refresh doc2 c2 = meta_refresh doc c1 :=
    meta_refresh_congr doc doc2 c1 c2 hmet hal12 hbd12
  have e5 : hidden_inputs doc2 c2 = hidden_inputs doc c1 :=
    hidden_inputs_congr doc doc2 c1 c2 hinp
  have e6 : js_obfuscation_apis doc2 c2 = js_obfuscation_apis doc c1 :=
    js_obfuscation_congr doc doc2 c1 c2 hscr
  have e7 : js_high_entropy_inline entHigh doc2 c2
      = js_high_entropy_inline entHigh doc c1 :=
    js_high_entropy_congr entHigh doc doc2 c1 c2 hscr
  have e8 : js_localhost_calls doc2 c2 = js_localhost_calls doc c1 :=
    js_localhost_congr doc doc2 c1 c2 hscr
  have e10 : hidden_iframe doc2 c2 = hidden_iframe doc c1 :=
    hidden_iframe_congr doc doc2 c1 c2 hifr
  rw [e3, e4, e5, e6, e7, e8, e10]
  obtain ⟨ffind, hf1, hfproj⟩ := checkFormExternal_fires c1 form hd hbd1 hdb1 hal1
  have e1 : form_action_external doc c1
      = catMap (checkFormExternal c1) pre
        ++ (ffind :: catMap (checkFormExternal c1) post) := by
    unfold form_action_external
    rw [hforms1, catMap_append]
    show catMap (checkFormExternal c1) pre
        ++ (checkFormExternal c1 form ++ catMap (checkFormExternal c1) post) = _
    rw [hf1]
    rfl
  have e1b : form_action_external doc2 c2
      = catMap (checkFormExternal c1) pre
        ++ catMap (checkFormExternal c1) post := by
    unfold form_action_external
    rw [hforms2, catMap_append]
    have hcc : checkFormExternal c2 = checkFormExternal c1 :=
      funext (fun fo => checkFormExternal_congr c1 c2 fo hal12 hbd12)
    rw [hcc]
    show catMap (checkFormExternal c1) pre
        ++ (checkFormExternal c1 { action := none, method := m }
            ++ catMap (checkFormExternal c1) post) = _
    rw [checkFormExternal_none]
    rfl
  have e2 : form_action_http doc c1
      = catMap checkFormHttp pre
        ++ (checkFormHttp form ++ catMap checkFormHttp post) := by
    unfold form_action_http
    rw [hforms1, catMap_append]
    rfl
  have e2b : form_action_http doc2 c2
      = catMap checkFormHttp pre ++ catMap checkFormHttp post := by
    unfold form_action_http
    rw [hforms2, catMap_append]
    show catMap checkFormHttp pre
        ++ (checkFormHttp { action := none, method := m }
            ++ catMap checkFormHttp post) = _
    rw [checkFormHttp_none]
    rfl
  rw [e1, e1b, e2, e2b]
  have e9 : ((suspicious_domain_patterns doc2 c2).map projFW).Subperm
      ((suspicious_domain_patterns doc c1).map projFW) :=
    suspicious_proj_subperm doc doc2 c1 c2 hal12 hbd12 hdom12
  refine wScore_pair_bounds ("FORM_ACTION_EXTERNAL", 25) ?_ rfl (by norm_num)
  simp only [List.map_append, List.map_cons]
  rw [hfproj]
  rw [List.subperm_ext_iff]
  intro y hy
  have h9c := e9.count_le y
  simp only [List.count_append, List.count_cons]
  omega

/-- A form posting to an external http domain, repeated in the C7
counterexample document. -/
def formC7 : FormTag := { action := some "http://evil.example/a", method := none }

/-- Six copies of the external-action form: enough repeated findings to
drive the score to the 100-point clamp. -/
def docC7 : Doc :=
  { forms := List.replicate 6 formC7, scripts := [], iframes := [], metas := [],
    inputs := [], links := [], imgs := [], anchors := [] }

/-- The same document with the first form action removed. -/
def docC7r : Doc :=
  { forms := { action := none, method := none } :: List.replicate 5 formC7,
    scripts := [], iframes := [], metas := [], inputs := [], links := [],
    imgs := [], anchors := [] }

set_option maxRecDepth 100000 in
/-- C7 counterexample: a document with six forms posting to the external,
non-allowlisted domain evil.example scores 100, and so does the
otherwise-identical document with one form action removed — the strict
inequality claimed by the spec fails at the clamp. -/
theorem c7_counterexample :
    docC7.forms = formC7 :: List.replicate 5 formC7
    ∧ docC7r = { docC7 with
        forms := { action := none, method := none } :: List.replicate 5 formC7 }
    ∧ get_domain (stripS (formC7.action.getD "")) = "evil.example"
    ∧ (analyze_html entHigh0 docC7 "page.html"
        (some "https://accounts.example.com/login") [] []).base_domain
        = "accounts.example.com"
    ∧ "evil.example" ≠ "accounts.example.com"
    ∧ is_allowlisted "evil.example" ([].map lowerS) = false
    ∧ (analyze_html entHigh0 docC7r "page.html"
        (some "https://accounts.example.com/login") [] []).score = 100
    ∧ (analyze_html entHigh0 docC7 "page.html"
        (some "https://accounts.example.com/login") [] []).score = 100 := by
  decide

/-- A single form posting to an external https domain, for the C7 witness. -/
def formC7w : FormTag :=
  { action := some "https://phish.example/steal", method := none }

/-- A one-form document whose form posts to an external domain. -/
def docC7w : Doc :=
  { forms := [formC7w], scripts := [], iframes := [], metas := [],
    inputs := [], links := [], imgs := [], anchors := [] }

/-- The same document with the form action removed. -/
def docC7w2 : Doc :=
  { forms := [{ action := none, method := none }], scripts := [], iframes := [],
    metas := [], inputs := [], links := [], imgs := [], anchors := [] }

set_option maxRecDepth 100000 in
/-- Witness for C7 (amended): on a one-form document posting to
phish.example, removing the form action strictly lowers the score. -/
theorem c7_witness :
    (analyze_html entHigh0 docC7w2 "page.html"
        (some "https://accounts.example.com/login") [] []).score
      < (analyze_html entHigh0 docC7w "page.html"
        (some "https://accounts.example.com/login") [] []).score := by
  have h := c7_amended entHigh0 [] [] formC7w none [] [] [] [] [] [] []
    docC7w docC7w2 "page.html" "https://accounts.example.com/login" []
    rfl rfl (by decide) (by decide) (by decide) (by decide) (by decide)
  exact h.2 (by decide)
